import Mathlib

/-!
Shallow embedding of the `config_coordination` package
(`file_config.py`, `advanced_config.py`, `service_registry.py`,
`config_service.py`, `performance_optimization.py`, `api_extensions.py`)
and proofs about the spec claims.

Python values that flow through the configuration store are JSON-serializable
structures: `None`, booleans, integers, strings, lists and string-keyed dicts.
Dicts are modelled as insertion-ordered association lists, mirroring CPython
dict semantics (assignment to an existing key keeps its position; a fresh key
is appended).
-/

inductive JValue where
  | null
  | bool (b : Bool)
  | num (n : Int)
  | str (s : String)
  | arr (xs : List JValue)
  | obj (kvs : List (String × JValue))
deriving Repr

/-- A Python dict with string keys, in insertion order. -/
abbrev PyDict := List (String × JValue)

/-- Ordered-dict lookup: first binding of the key (keys are unique in any
state a Python dict can reach). -/
def alistLookup {α : Type} (l : List (String × α)) (k : String) : Option α :=
  match l with
  | [] => none
  | (k2, v) :: rest => if k2 = k then some v else alistLookup rest k

/-- Ordered-dict assignment: replace in place if the key exists, else append. -/
def alistSet {α : Type} (l : List (String × α)) (k : String) (v : α) : List (String × α) :=
  match l with
  | [] => [(k, v)]
  | (k2, w) :: rest => if k2 = k then (k2, v) :: rest else (k2, w) :: alistSet rest k v

/-- `d[k]` / `d.get(k)`. -/
def pyLookup (d : PyDict) (k : String) : Option JValue :=
  alistLookup d k

/-- `k in d`. -/
def pyHasKey (d : PyDict) (k : String) : Bool :=
  (pyLookup d k).isSome

/-- `d[k] = v`. -/
def pySet (d : PyDict) (k : String) (v : JValue) : PyDict :=
  alistSet d k v

/-- `d.setdefault(k, v)`. -/
def pySetdefault (d : PyDict) (k : String) (v : JValue) : PyDict :=
  if pyHasKey d k then d else d ++ [(k, v)]

/-- `d.update(e)`: assign every binding of `e` into `d`, in order. -/
def pyUpdate (d e : PyDict) : PyDict :=
  e.foldl (fun acc kv => pySet acc kv.1 kv.2) d

/-- `d.pop(k, None)`: drop the binding of `k` when present. -/
def pyPop (d : PyDict) (k : String) : PyDict :=
  d.filter (fun kv => kv.1 ≠ k)

/-- `list(d.keys())`. -/
def pyKeys (d : PyDict) : List String := d.map Prod.fst

mutual

/-- Python `==` on the modelled values: `True == 1`, `False == 0`,
and dict equality compares key sets and values, not order. -/
def pyEq : JValue → JValue → Bool
  | .null, .null => true
  | .bool a, .bool b => a == b
  | .bool a, .num n => (if a then (1 : Int) else 0) == n
  | .num n, .bool b => n == (if b then (1 : Int) else 0)
  | .num a, .num b => a == b
  | .str a, .str b => a == b
  | .arr a, .arr b => pyEqList a b
  | .obj a, .obj b => pyEqObjFwd a b && (b.all (fun kv => pyHasKey a kv.1))
  | _, _ => false

def pyEqList : List JValue → List JValue → Bool
  | [], [] => true
  | x :: xs, y :: ys => pyEq x y && pyEqList xs ys
  | _, _ => false

/-- Every key of `a` is bound in `b` to a `pyEq`-equal value. -/
def pyEqObjFwd : List (String × JValue) → List (String × JValue) → Bool
  | [], _ => true
  | (k, v) :: rest, b =>
      (match pyLookup b k with
       | some w => pyEq v w
       | none => false) && pyEqObjFwd rest b

end

/-- Python truthiness of a modelled value (`if config:` etc.). -/
def pyTruthy : JValue → Bool
  | .null => false
  | .bool b => b
  | .num n => n != 0
  | .str s => s ≠ ""
  | .arr xs => !xs.isEmpty
  | .obj kvs => !kvs.isEmpty

def hexDigitChar (n : Nat) : Char :=
  if n < 10 then Char.ofNat (48 + n) else Char.ofNat (87 + n)

def hex4 (n : Nat) : String :=
  String.mk [hexDigitChar (n / 4096 % 16), hexDigitChar (n / 256 % 16),
             hexDigitChar (n / 16 % 16), hexDigitChar (n % 16)]

/-- One character of `json.dumps` output with the default `ensure_ascii=True`
(CPython `py_encode_basestring_ascii`). -/
def jsonEscapeChar (c : Char) : String :=
  if c = '\\' then "\\\\"
  else if c = '"' then "\\\""
  else if c = Char.ofNat 8 then "\\b"
  else if c = Char.ofNat 12 then "\\f"
  else if c = '\n' then "\\n"
  else if c = '\r' then "\\r"
  else if c = '\t' then "\\t"
  else if c.toNat < 32 then "\\u" ++ hex4 c.toNat
  else if c.toNat < 127 then String.singleton c
  else if c.toNat < 65536 then "\\u" ++ hex4 c.toNat
  else
    let v := c.toNat - 65536
    "\\u" ++ hex4 (55296 + v / 1024) ++ "\\u" ++ hex4 (56320 + v % 1024)

def jsonEscapeString (s : String) : String :=
  "\"" ++ String.join (s.data.map jsonEscapeChar) ++ "\""

mutual

/-- `json.dumps(value)` with CPython defaults (separators `", "` and `": "`,
ASCII output). -/
def jsonDumps : JValue → String
  | .null => "null"
  | .bool true => "true"
  | .bool false => "false"
  | .num n => toString n
  | .str s => jsonEscapeString s
  | .arr xs => "[" ++ jsonDumpsList xs ++ "]"
  | .obj kvs => "\x7b" ++ jsonDumpsObj kvs ++ "\x7d"

def jsonDumpsList : List JValue → String
  | [] => ""
  | [x] => jsonDumps x
  | x :: y :: rest => jsonDumps x ++ ", " ++ jsonDumpsList (y :: rest)

def jsonDumpsObj : List (String × JValue) → String
  | [] => ""
  | [(k, v)] => jsonEscapeString k ++ ": " ++ jsonDumps v
  | (k, v) :: q :: rest => jsonEscapeString k ++ ": " ++ jsonDumps v ++ ", " ++ jsonDumpsObj (q :: rest)

end

def insertByKey (p : String × JValue) : List (String × JValue) → List (String × JValue)
  | [] => [p]
  | q :: rest => if p.1 ≤ q.1 then p :: q :: rest else q :: insertByKey p rest

/-- `sorted(...)` of dict items by key (Python string order = code-point order). -/
def sortByKey : List (String × JValue) → List (String × JValue)
  | [] => []
  | p :: rest => insertByKey p (sortByKey rest)

mutual

/-- Recursively put every object level in sorted-key order, so that
`jsonDumps (sortKeysRec v)` is `json.dumps(v, sort_keys=True)`. -/
def sortKeysRec : JValue → JValue
  | .arr xs => .arr (sortKeysRecList xs)
  | .obj kvs => .obj (sortByKey (sortKeysRecObj kvs))
  | .null => .null
  | .bool b => .bool b
  | .num n => .num n
  | .str s => .str s

def sortKeysRecList : List JValue → List JValue
  | [] => []
  | x :: xs => sortKeysRec x :: sortKeysRecList xs

def sortKeysRecObj : List (String × JValue) → List (String × JValue)
  | [] => []
  | (k, v) :: rest => (k, sortKeysRec v) :: sortKeysRecObj rest

end

/-- `fnmatch.fnmatch(name, pattern)` on POSIX for patterns built from literal
characters, `*` and `?` (the only pattern forms this repository uses;
character classes do not occur). Matches the whole name; `*` matches any
(possibly empty) run of characters. Structured with an explicit fuel
parameter so it reduces in the kernel; every recursive call shrinks
`pat.length + name.length`, so fuel `pat.length + name.length + 1` is never
exhausted and the `0` branch is unreachable. -/
def globMatchFuel : Nat → List Char → List Char → Bool
  | 0, _, _ => false
  | fuel + 1, pat, name =>
    match pat, name with
    | [], [] => true
    | [], _ :: _ => false
    | '*' :: ps, [] => globMatchFuel fuel ps []
    | '*' :: ps, c :: ns =>
        globMatchFuel fuel ps (c :: ns) || globMatchFuel fuel ('*' :: ps) ns
    | '?' :: _, [] => false
    | '?' :: ps, _ :: ns => globMatchFuel fuel ps ns
    | _ :: _, [] => false
    | p :: ps, c :: ns => p == c && globMatchFuel fuel ps ns

def globMatchChars (pat name : List Char) : Bool :=
  globMatchFuel (pat.length + name.length + 1) pat name

def fnmatchB (name pat : String) : Bool :=
  globMatchChars pat.data name.data

/-! ## `performance_optimization.OptimizedConfigCache` -/

/-- `CacheEntry` dataclass. -/
structure CacheEntry where
  value : JValue
  timestamp : Int
  access_count : Nat
  size_bytes : Nat
deriving Repr

/-- `OptimizedConfigCache` state. `cache` models the `OrderedDict`: unique
keys in recency order, least recently used first. The statistics counters are
the `stats` dict fields. `memory_usage` is a Python int (`+=`/`-=`), kept as
`Int`. -/
structure OptimizedConfigCache where
  max_memory_bytes : Nat
  max_entries : Nat
  cache : List (String × CacheEntry)
  memory_usage : Int
  hits : Nat
  misses : Nat
  evictions : Nat
  memory_evictions : Nat
deriving Repr

namespace OptimizedConfigCache

/-- `OptimizedConfigCache(max_memory_mb, max_entries)`. -/
def init (max_memory_mb : Nat) (max_entries : Nat) : OptimizedConfigCache :=
  { max_memory_bytes := max_memory_mb * 1024 * 1024
    max_entries := max_entries
    cache := []
    memory_usage := 0
    hits := 0
    misses := 0
    evictions := 0
    memory_evictions := 0 }

/-- `_calculate_size`: `len(json.dumps(value, default=str).encode('utf-8'))`.
The modelled values are always serializable, so the 1024-byte fallback of the
`except` branch is unreachable here. -/
def calculate_size (value : JValue) : Nat :=
  (jsonDumps value).utf8ByteSize

/-- `OrderedDict.move_to_end(key)` combined with storing the bumped entry:
drop the binding of `key` and append the given entry at the MRU end. -/
def moveToEnd (cache : List (String × CacheEntry)) (key : String) (e : CacheEntry) :
    List (String × CacheEntry) :=
  cache.filter (fun kv => kv.1 ≠ key) ++ [(key, e)]

/-- `get(key)`. A Python caller receives `entry.value` on a hit and the bare
`None` on a miss, so the returned value is a `JValue` with `.null` for the
miss path, exactly as the source conflates them. -/
def get (c : OptimizedConfigCache) (key : String) : JValue × OptimizedConfigCache :=
  match alistLookup c.cache key with
  | some e =>
      let e2 := { e with access_count := e.access_count + 1 }
      (e2.value, { c with cache := moveToEnd c.cache key e2, hits := c.hits + 1 })
  | none => (.null, { c with misses := c.misses + 1 })

/-- The `while` loop of `put`: evict LRU entries while
`len(cache) >= max_entries or memory_usage + size > max_memory_bytes`,
breaking when the cache is empty (`_evict_lru` inlined). -/
def evictWhile (maxE : Nat) (maxB : Nat) (size : Nat) :
    List (String × CacheEntry) → Int → Nat → List (String × CacheEntry) × Int × Nat
  | [], mem, evs => ([], mem, evs)
  | (k, e) :: rest, mem, evs =>
      if ((k, e) :: rest).length ≥ maxE ∨ mem + size > maxB then
        evictWhile maxE maxB size rest (mem - e.size_bytes) (evs + 1)
      else ((k, e) :: rest, mem, evs)

/-- The "remove existing entry if present" step of `put`. -/
def removeExisting (c : OptimizedConfigCache) (key : String) : OptimizedConfigCache :=
  match alistLookup c.cache key with
  | some old =>
      { c with cache := c.cache.filter (fun kv => kv.1 ≠ key)
               memory_usage := c.memory_usage - old.size_bytes }
  | none => c

/-- `put(key, value, ttl_seconds)`. `now` supplies `time.time()` for the
entry's `timestamp` field. `ttl_seconds` is a parameter of the source
function; its body never reads it. -/
def put (c : OptimizedConfigCache) (key : String) (value : JValue)
    (ttl_seconds : Option Int) (now : Int) : OptimizedConfigCache :=
  let size := calculate_size value
  let c1 := removeExisting c key
  let r := evictWhile c1.max_entries c1.max_memory_bytes size
      c1.cache c1.memory_usage c1.evictions
  let entry : CacheEntry :=
    { value := value, timestamp := now, access_count := 1, size_bytes := size }
  { c1 with cache := r.1 ++ [(key, entry)]
            memory_usage := r.2.1 + size
            evictions := r.2.2 }

end OptimizedConfigCache

/-- One cache operation, for reasoning about operation sequences. -/
inductive CacheOp where
  | get (key : String)
  | put (key : String) (value : JValue) (ttl_seconds : Option Int) (now : Int)
deriving Repr

def runCacheOp (c : OptimizedConfigCache) : CacheOp → OptimizedConfigCache
  | .get k => (c.get k).2
  | .put k v ttl now => c.put k v ttl now

def runCacheOps (c : OptimizedConfigCache) (ops : List CacheOp) : OptimizedConfigCache :=
  ops.foldl runCacheOp c

/-! ## `file_config.FileConfigManager` -/

/-- Python exception kinds raised by the modelled code. -/
inductive PyError where
  | fileNotFound (msg : String)
  | valueError (msg : String)
  | attributeError (msg : String)
deriving Repr

/-- `FileConfigManager` state. The shared config directory is modelled as the
mapping from file names (with extension) to their parsed structured content;
serialization and parsing round-trip, so files hold the written document. -/
structure FileConfigManager where
  config_dir : String
  default_format : String
  files : List (String × PyDict)
  config_cache : List (String × PyDict)
deriving Repr

namespace FileConfigManager

def initFM (config_dir : String) (default_format : String) : FileConfigManager :=
  { config_dir := config_dir, default_format := default_format
    files := [], config_cache := [] }

/-- `format = format or self.default_format` (`""` is falsy in Python). -/
def resolveFormat (st : FileConfigManager) (format : Option String) : String :=
  match format with
  | some f => if f = "" then st.default_format else f
  | none => st.default_format

/-- `save_config(config_name, config_data, format)`. `now` supplies
`datetime.now().isoformat()`. Returns the file path. The metadata block is
`config_data.setdefault('_metadata', {})` followed by
`config_data['_metadata'].update({'created': now, 'version': "1.0",
'format': format})`; a non-dict pre-existing `_metadata` raises
`AttributeError` (no `update` method), before any file or cache mutation. -/
def save_config (st : FileConfigManager) (config_name : String) (config_data : PyDict)
    (format : Option String) (now : String) :
    Except PyError (String × FileConfigManager) :=
  let fmt := resolveFormat st format
  let d := pySetdefault config_data "_metadata" (.obj [])
  match pyLookup d "_metadata" with
  | some (.obj md) =>
      let md2 := pyUpdate md
        [("created", .str now), ("version", .str "1.0"), ("format", .str fmt)]
      let d2 := pySet d "_metadata" (.obj md2)
      let filename := if fmt = "yaml" then config_name ++ ".yaml" else config_name ++ ".json"
      let filepath := st.config_dir ++ "/" ++ filename
      .ok (filepath,
        { st with files := alistSet st.files filename d2
                  config_cache := alistSet st.config_cache config_name d2 })
  | _ => .error (.attributeError "'_metadata' value has no attribute 'update'")

/-- The probe loop of `load_config` / `_find_config_file` /
`delete_config`: try `<name>.json`, `<name>.yaml`, `<name>.yml` in order. -/
def probeExts (files : List (String × PyDict)) (config_name : String) :
    List String → Option (String × PyDict)
  | [] => none
  | ext :: rest =>
      let fn := config_name ++ "." ++ ext
      match alistLookup files fn with
      | some d => some (fn, d)
      | none => probeExts files config_name rest

/-- `load_config(config_name, use_cache)`. -/
def load_config (st : FileConfigManager) (config_name : String) (use_cache : Bool) :
    Except PyError (PyDict × FileConfigManager) :=
  match (if use_cache then alistLookup st.config_cache config_name else none) with
  | some d => .ok (d, st)
  | none =>
      match probeExts st.files config_name ["json", "yaml", "yml"] with
      | some (_, d) =>
          .ok (d, { st with config_cache := alistSet st.config_cache config_name d })
      | none =>
          .error (.fileNotFound
            ("Configuration '" ++ config_name ++ "' not found in " ++ st.config_dir))

end FileConfigManager

/-! ## `service_registry.ServiceRegistry` -/

/-- `ServiceInfo` dataclass. Timestamps are stored as ISO strings in the
source and compared through `datetime.fromisoformat` subtraction in seconds;
the model keeps them as integer seconds. -/
structure ServiceInfo where
  name : String
  host : String
  port : Int
  status : String
  service_type : String
  version : String
  health_endpoint : Option String
  metadata : Option PyDict
  registered_at : Option Int
  last_heartbeat : Option Int
deriving Repr

/-- `ServiceRegistry` state. `file_content` is the persisted registry file
(`{'services': ..., 'updated_at': now}`), `none` before the first write;
`save_count` counts `save_registry` whole-file rewrites. -/
structure ServiceRegistry where
  registry_file : String
  heartbeat_timeout : Int
  services : List (String × ServiceInfo)
  file_content : Option (List (String × ServiceInfo) × Int)
  save_count : Nat
deriving Repr

namespace ServiceRegistry

/-- The constructor's `heartbeat_timeout: int = 300` default. -/
def defaultHeartbeatTimeout : Int := 300

/-- `ServiceRegistry(registry_file)` over a missing registry file. -/
def initSR (registry_file : String) (heartbeat_timeout : Int) : ServiceRegistry :=
  { registry_file := registry_file, heartbeat_timeout := heartbeat_timeout
    services := [], file_content := none, save_count := 0 }

/-- `save_registry()`. -/
def save_registry (st : ServiceRegistry) (now : Int) : ServiceRegistry :=
  { st with file_content := some (st.services, now), save_count := st.save_count + 1 }

/-- `register_service(...)`: always overwrites, sets status `active` and both
timestamps to now, persists, returns `True`. -/
def register_service (st : ServiceRegistry) (name host : String) (port : Int)
    (service_type version : String) (health_endpoint : Option String)
    (metadata : Option PyDict) (now : Int) : Bool × ServiceRegistry :=
  let info : ServiceInfo :=
    { name := name, host := host, port := port, status := "active"
      service_type := service_type, version := version
      health_endpoint := health_endpoint
      metadata := some (metadata.getD [])   -- `metadata or {}`
      registered_at := some now, last_heartbeat := some now }
  (true, save_registry { st with services := alistSet st.services name info } now)

/-- The staleness test of `cleanup_stale_services`: the record has a truthy
`last_heartbeat` and `(now - last_heartbeat).total_seconds() > timeout`. -/
def isStale (timeout now : Int) (s : ServiceInfo) : Bool :=
  match s.last_heartbeat with
  | some t => now - t > timeout
  | none => false

/-- `cleanup_stale_services()`: collect stale names, delete them, persist only
when at least one was removed, return the removal count. -/
def cleanup_stale_services (st : ServiceRegistry) (now : Int) : ServiceRegistry × Nat :=
  let staleNames := (st.services.filter (fun kv => isStale st.heartbeat_timeout now kv.2)).map Prod.fst
  let services2 := st.services.filter (fun kv => !staleNames.contains kv.1)
  let st2 := { st with services := services2 }
  let st3 := if staleNames.isEmpty then st2 else save_registry st2 now
  (st3, staleNames.length)

/-- `get_active_services()`: cleanup first, then filter on status. -/
def get_active_services (st : ServiceRegistry) (now : Int) :
    List ServiceInfo × ServiceRegistry :=
  let st2 := (cleanup_stale_services st now).1
  ((st2.services.map Prod.snd).filter (fun s => s.status = "active"), st2)

/-- The `service_types` counting loop of `get_registry_status`. -/
def countTypes (services : List (String × ServiceInfo)) : PyDict :=
  services.foldl
    (fun acc kv =>
      let t := kv.2.service_type
      let acc2 := if pyHasKey acc t then acc else pySet acc t (.num 0)
      match pyLookup acc2 t with
      | some (.num n) => pySet acc2 t (.num (n + 1))
      | _ => acc2)
    []

/-- `get_registry_status()`: cleanup first, then summarize. -/
def get_registry_status (st : ServiceRegistry) (now : Int) : PyDict × ServiceRegistry :=
  let st2 := (cleanup_stale_services st now).1
  let status : PyDict :=
    [("total_services", .num st2.services.length),
     ("active_services", .num ((st2.services.map Prod.snd).filter
        (fun s => s.status = "active")).length),
     ("service_types", .obj (countTypes st2.services)),
     ("last_updated", .num now)]
  (status, st2)

end ServiceRegistry

/-! ## `config_service.ConfigService` -/

/-- `ConfigService` composes the file manager and the registry. -/
structure ConfigService where
  config_manager : FileConfigManager
  service_registry : ServiceRegistry
  service_name : String
deriving Repr

namespace ConfigService

/-- `ConfigService.load_config` delegates to the file manager. -/
def load_config (st : ConfigService) (config_name : String) (use_cache : Bool) :
    Except PyError (PyDict × ConfigService) :=
  match st.config_manager.load_config config_name use_cache with
  | .ok (d, m2) => .ok (d, { st with config_manager := m2 })
  | .error e => .error e

/-- The hardcoded default document returned by `get_global_config` when the
`global` configuration is absent. -/
def defaultGlobalConfig : PyDict :=
  [("system", .obj
      [("name", .str "Data Processor System"),
       ("version", .str "1.0"),
       ("environment", .str "development")]),
   ("logging", .obj
      [("level", .str "INFO"),
       ("format", .str "%(asctime)s - %(name)s - %(levelname)s - %(message)s")]),
   ("coordination", .obj
      [("heartbeat_interval", .num 60),
       ("cleanup_interval", .num 300)])]

/-- `get_global_config()`: `load_config("global")`, catching only
`FileNotFoundError` and falling back to the default document. Any other
exception would propagate, hence the `Except` result type. -/
def get_global_config (st : ConfigService) : Except PyError (PyDict × ConfigService) :=
  match load_config st "global" true with
  | .ok r => .ok r
  | .error (.fileNotFound _) => .ok (defaultGlobalConfig, st)
  | .error e => .error e

end ConfigService

/-! ## `advanced_config.AdvancedConfigManager` -/

/-- `ConfigWatcher` dataclass. The callback slot of the source always holds a
function; the modelled layer records only watcher identity and poll state. -/
structure ConfigWatcher where
  config_name : String
  last_modified : Int
  enabled : Bool
deriving Repr

/-- A history entry: `{"timestamp": ..., "config": ..., "checksum": ...}`.
`checksum` in the source is the md5 hex digest of
`json.dumps(config_data, sort_keys=True)`; the md5 compression itself is an
external hash with no bearing on any claim, so the field carries the
canonical pre-hash string `jsonDumps (sortKeysRec (.obj config))`. -/
structure HistoryEntry where
  timestamp : String
  config : PyDict
  checksum : String
deriving Repr

/-- `AdvancedConfigManager(config_dir)` state on top of `FileConfigManager`. -/
structure AdvancedConfigManager extends FileConfigManager where
  watchers : List ConfigWatcher
  config_history : List (String × List HistoryEntry)
deriving Repr

namespace AdvancedConfigManager

def initAM (config_dir : String) (default_format : String) : AdvancedConfigManager :=
  { FileConfigManager.initFM config_dir default_format with
    watchers := [], config_history := [] }

/-- Python `l[-n:]` for `n > 0`. -/
def takeLast {α : Type} (n : Nat) (l : List α) : List α :=
  l.drop (l.length - n)

/-- `_calculate_checksum` up to the unmodelled md5 compression (see
`HistoryEntry.checksum`). -/
def calculate_checksum (config_data : PyDict) : String :=
  jsonDumps (sortKeysRec (.obj config_data))

/-- `_add_to_history(config_name, config_data)`: append a snapshot entry,
then trim to the last `max_history = 50` entries when over the cap. -/
def add_to_history (st : AdvancedConfigManager) (config_name : String)
    (config_data : PyDict) (now : String) : AdvancedConfigManager :=
  let hist := (alistLookup st.config_history config_name).getD []
  let entry : HistoryEntry :=
    { timestamp := now, config := config_data, checksum := calculate_checksum config_data }
  let h2 := hist ++ [entry]
  let h3 := if h2.length > 50 then takeLast 50 h2 else h2
  { st with config_history := alistSet st.config_history config_name h3 }

/-- `_check_type(value, expected_type)`. `isinstance(value, int)` is true for
Python booleans as well (bool subclasses int), mirrored here. -/
def check_type (v : JValue) (expected : String) : Bool :=
  if expected = "string" then (match v with | .str _ => true | _ => false)
  else if expected = "integer" then (match v with | .num _ => true | .bool _ => true | _ => false)
  else if expected = "number" then (match v with | .num _ => true | .bool _ => true | _ => false)
  else if expected = "boolean" then (match v with | .bool _ => true | _ => false)
  else if expected = "array" then (match v with | .arr _ => true | _ => false)
  else if expected = "object" then (match v with | .obj _ => true | _ => false)
  else true

/-- The required-fields pass of `_validate_config_schema`. A required "field"
is compared against the config's string keys by Python `==`, so only string
entries of the `required` list can match. -/
def validateRequired (config_data : PyDict) : List JValue → Except PyError Unit
  | [] => .ok ()
  | f :: rest =>
      let present := match f with
        | .str s => pyHasKey config_data s
        | _ => false
      if present then validateRequired config_data rest
      else
        .error (.valueError
          ("Required field '" ++ jsonDumps f ++ "' missing from configuration"))

/-- One step of the property-type pass: `field_schema.get("type")`, skipped
when falsy, `type_mapping.get(expected_type)` yields `None` (hence no check)
for any hashable non-matching key, and an unhashable key (`list`/`dict`)
raises; a non-dict field schema raises on `.get`. -/
def validateOneProp (config_data : PyDict) (field : String) (field_schema : JValue) :
    Except PyError Unit :=
  if pyHasKey config_data field then
    match field_schema with
    | .obj fs =>
        match pyLookup fs "type" with
        | some (.str t) =>
            if t = "" then .ok ()
            else if check_type ((pyLookup config_data field).getD .null) t then .ok ()
            else .error (.valueError ("Field '" ++ field ++ "' has incorrect type"))
        | some (.arr _) => .error (.valueError "unhashable type")
        | some (.obj _) => .error (.valueError "unhashable type")
        | some _ => .ok ()
        | none => .ok ()
    | _ => .error (.attributeError "field schema has no attribute 'get'")
  else .ok ()

def validateProps (config_data : PyDict) : List (String × JValue) → Except PyError Unit
  | [] => .ok ()
  | (field, fs) :: rest =>
      match validateOneProp config_data field fs with
      | .ok _ => validateProps config_data rest
      | .error e => .error e

/-- `_validate_config_schema(config_data, schema)`. `schema.get("required",
[])` and `schema.get("properties", {})` tolerate absent keys; a present
non-list / non-dict value of a shape that cannot be iterated as required
is outside the modelled executions. -/
def validate_config_schema (config_data : PyDict) (schema : PyDict) :
    Except PyError Unit :=
  let required := match pyLookup schema "required" with
    | some (.arr xs) => xs
    | _ => []
  match validateRequired config_data required with
  | .error e => .error e
  | .ok _ =>
      let props := match pyLookup schema "properties" with
        | some (.obj kvs) => kvs
        | _ => []
      validateProps config_data props

/-- `if schema:` — `None` and `{}` are both falsy. -/
def schemaTruthy (schema : Option PyDict) : Bool :=
  match schema with
  | some s => !s.isEmpty
  | none => false

/-- `save_config_with_validation(...)`: validate when a truthy schema is
given, append to history, then run the plain save. State mutations made
before a raise survive it, so the new state is returned alongside the
exception outcome. -/
def save_config_with_validation (st : AdvancedConfigManager) (config_name : String)
    (config_data : PyDict) (schema : Option PyDict) (format : Option String)
    (now : String) : Except PyError String × AdvancedConfigManager :=
  let check : Except PyError Unit :=
    if schemaTruthy schema then validate_config_schema config_data ((schema).getD [])
    else .ok ()
  match check with
  | .error e => (.error e, st)
  | .ok _ =>
      let st2 := add_to_history st config_name config_data now
      match st2.toFileConfigManager.save_config config_name config_data format now with
      | .ok (path, f2) => (.ok path, { st2 with toFileConfigManager := f2 })
      | .error e => (.error e, st2)

/-- The inherited plain `save_config` acting on the extended state. -/
def save_config (st : AdvancedConfigManager) (config_name : String)
    (config_data : PyDict) (format : Option String) (now : String) :
    Except PyError String × AdvancedConfigManager :=
  match st.toFileConfigManager.save_config config_name config_data format now with
  | .ok (path, f2) => (.ok path, { st with toFileConfigManager := f2 })
  | .error e => (.error e, st)

/-- The version-resolution loop of `get_config_diff`: the last entry whose
timestamp equals the requested one wins. -/
def findVersion (history : List HistoryEntry) (ts : String) : Option PyDict :=
  history.foldl (fun acc e => if e.timestamp = ts then some e.config else acc) none

/-- The four buckets built by `_calculate_diff`. -/
structure DiffResult where
  added : PyDict
  removed : PyDict
  modified : PyDict
  unchanged : PyDict
deriving Repr

/-- The per-key classification step of `_calculate_diff`. The double-miss
case cannot arise for a key of the union. -/
def diffStep (config1 config2 : PyDict) (d : DiffResult) (key : String) : DiffResult :=
  match pyLookup config1 key, pyLookup config2 key with
  | none, some v2 => { d with added := pySet d.added key v2 }
  | some v1, none => { d with removed := pySet d.removed key v1 }
  | some v1, some v2 =>
      if pyEq v1 v2 then { d with unchanged := pySet d.unchanged key v1 }
      else { d with modified := pySet d.modified key
                      (.obj [("old", v1), ("new", v2)]) }
  | none, none => d

/-- `_calculate_diff(config1, config2)`. `set(keys1) | set(keys2)` iterates in
an unspecified hash order in CPython; the model fixes the order to
first-occurrence dedup of `keys1 ++ keys2`, which has the same membership. -/
def calculate_diff (config1 config2 : PyDict) : DiffResult :=
  let all_keys := (pyKeys config1 ++ pyKeys config2).dedup
  all_keys.foldl (diffStep config1 config2)
    { added := [], removed := [], modified := [], unchanged := [] }

/-- `get_config_diff(config_name, version1, version2)`. `if not config1 or
not config2` treats an empty-dict snapshot like a missing one. -/
def get_config_diff (st : AdvancedConfigManager) (config_name version1 version2 : String) :
    Except PyError DiffResult :=
  let history := (alistLookup st.config_history config_name).getD []
  match findVersion history version1, findVersion history version2 with
  | some c1, some c2 =>
      if c1.isEmpty || c2.isEmpty then
        .error (.valueError "One or both versions not found in history")
      else .ok (calculate_diff c1 c2)
  | _, _ => .error (.valueError "One or both versions not found in history")

end AdvancedConfigManager

/-! ## `api_extensions.ConfigCoordinationAPI` -/

/-- `ConfigSubscription` dataclass. Callback slots hold a URL / a function in
the source; the model keeps their presence, and callback execution is
observed as an emitted invocation event. -/
structure ConfigSubscription where
  subscriber_id : String
  config_patterns : List String
  has_callback_url : Bool
  has_callback_function : Bool
  created_at : String
  last_notified : String
deriving Repr

/-- `ConfigCoordinationAPI` state. -/
structure ConfigCoordinationAPI where
  advanced_config : AdvancedConfigManager
  base_service : ConfigService
  subscriptions : List (String × ConfigSubscription)
  change_log : List PyDict
deriving Repr

namespace ConfigCoordinationAPI

/-- `AdvancedConfigManager.watch_config(config_name, callback)`: find the
backing file (raising `FileNotFoundError` when absent), then append a watcher
initialized with the file's current modification time. `mtime` supplies the
`stat().st_mtime` read. -/
def watch_config (st : AdvancedConfigManager) (config_name : String) (mtime : Int) :
    Except PyError AdvancedConfigManager :=
  match FileConfigManager.probeExts st.files config_name ["json", "yaml", "yml"] with
  | some _ =>
      .ok { st with watchers := st.watchers ++
              [{ config_name := config_name, last_modified := mtime, enabled := true }] }
  | none =>
      .error (.fileNotFound ("Configuration '" ++ config_name ++ "' not found"))

/-- The per-pattern registration loop of `subscribe_to_config_changes`:
`watch_config` is called with the raw pattern as a config name, and a
`FileNotFoundError` is swallowed. -/
def registerWatches (st : AdvancedConfigManager) (mtimes : String → Int) :
    List String → AdvancedConfigManager
  | [] => st
  | pattern :: rest =>
      let st2 := match watch_config st pattern (mtimes pattern) with
        | .ok s => s
        | .error _ => st
      registerWatches st2 mtimes rest

/-- `subscribe_to_config_changes(subscriber_id, config_patterns, ...)`:
store/overwrite the subscription, try to register a watch per pattern,
return `True`. -/
def subscribe_to_config_changes (api : ConfigCoordinationAPI) (subscriber_id : String)
    (config_patterns : List String) (has_callback_function has_callback_url : Bool)
    (now : String) (mtimes : String → Int) : Bool × ConfigCoordinationAPI :=
  let subscription : ConfigSubscription :=
    { subscriber_id := subscriber_id, config_patterns := config_patterns
      has_callback_url := has_callback_url
      has_callback_function := has_callback_function
      created_at := now, last_notified := now }
  let api2 := { api with
    subscriptions := alistSet api.subscriptions subscriber_id subscription
    advanced_config := registerWatches api.advanced_config mtimes config_patterns }
  (true, api2)

/-- `_matches_patterns(config_name, patterns)`. -/
def matches_patterns (config_name : String) (patterns : List String) : Bool :=
  patterns.any (fun p => fnmatchB config_name p)

/-- The subscriber fan-out loop of `_notify_subscribers`: every matching
subscription has its callback function invoked (errors are caught), then its
`last_notified` refreshed. The returned list records one invocation event per
callback call, in iteration order. -/
def notifyLoop (config_name : String) (now : String) :
    List (String × ConfigSubscription) → List (String × ConfigSubscription) × List String
  | [] => ([], [])
  | (k, sub) :: rest =>
      let r := notifyLoop config_name now rest
      if matches_patterns config_name sub.config_patterns then
        let calls := if sub.has_callback_function then [sub.subscriber_id] else []
        ((k, { sub with last_notified := now }) :: r.1, calls ++ r.2)
      else ((k, sub) :: r.1, r.2)

/-- `_notify_subscribers(config_name, config_data)`: append a change event to
the unbounded change log, then fan out to matching subscribers. Returns the
invocation events. -/
def notify_subscribers (api : ConfigCoordinationAPI) (config_name : String)
    (now : String) : ConfigCoordinationAPI × List String :=
  let change_event : PyDict :=
    [("config_name", .str config_name),
     ("changed_at", .str now),
     ("change_type", .str "modified")]
  let r := notifyLoop config_name now api.subscriptions
  ({ api with change_log := api.change_log ++ [change_event]
              subscriptions := r.1 }, r.2)

end ConfigCoordinationAPI

/-! ## Basic dictionary lemmas -/

theorem alistLookup_alistSet_self {α : Type} (l : List (String × α)) (k : String) (v : α) :
    alistLookup (alistSet l k v) k = some v := by
  induction l with
  | nil => simp [alistSet, alistLookup]
  | cons p rest ih =>
      obtain ⟨k2, w⟩ := p
      by_cases h : k2 = k
      · simp [alistSet, alistLookup, h]
      · simp [alistSet, alistLookup, h, ih]

theorem alistLookup_alistSet_ne {α : Type} (l : List (String × α)) (k k2 : String) (v : α)
    (h : k ≠ k2) : alistLookup (alistSet l k v) k2 = alistLookup l k2 := by
  induction l with
  | nil => simp [alistSet, alistLookup, h]
  | cons p rest ih =>
      obtain ⟨k3, w⟩ := p
      by_cases h3 : k3 = k
      · subst h3
        simp [alistSet, alistLookup, h]
      · simp [alistSet, alistLookup, h3, ih]

theorem alistLookup_append {α : Type} (a b : List (String × α)) (k : String) :
    alistLookup (a ++ b) k =
      (match alistLookup a k with
       | some v => some v
       | none => alistLookup b k) := by
  induction a with
  | nil => simp [alistLookup]
  | cons p rest ih =>
      obtain ⟨k2, w⟩ := p
      by_cases h : k2 = k
      · simp [alistLookup, h]
      · simp [alistLookup, h, ih]

theorem alistLookup_filterOut {α : Type} (l : List (String × α)) (k : String) :
    alistLookup (l.filter (fun kv => kv.1 ≠ k)) k = none := by
  induction l with
  | nil => simp [alistLookup]
  | cons p rest ih =>
      obtain ⟨k2, w⟩ := p
      by_cases h : k2 = k
      · simpa [List.filter_cons, h] using ih
      · simpa [List.filter_cons, h, alistLookup] using ih

theorem alistLookup_filterOut_ne {α : Type} (l : List (String × α)) (k k2 : String)
    (h : k2 ≠ k) :
    alistLookup (l.filter (fun kv => kv.1 ≠ k)) k2 = alistLookup l k2 := by
  induction l with
  | nil => simp
  | cons p rest ih =>
      obtain ⟨k3, w⟩ := p
      by_cases h3 : k3 = k
      · subst h3
        have h32 : k3 ≠ k2 := fun hh => h hh.symm
        simpa [List.filter_cons, alistLookup, h32] using ih
      · simp only [List.filter_cons, ne_eq, h3, not_false_eq_true, decide_True, alistLookup]
        by_cases h32 : k3 = k2
        · simp [h32]
        · simpa [h32] using ih

theorem alistLookup_eq_none_iff {α : Type} (l : List (String × α)) (k : String) :
    alistLookup l k = none ↔ ∀ p ∈ l, p.1 ≠ k := by
  induction l with
  | nil => simp [alistLookup]
  | cons p rest ih =>
      obtain ⟨k2, w⟩ := p
      by_cases h : k2 = k
      · simp [alistLookup, h]
      · simp [alistLookup, h, ih]

namespace OptimizedConfigCache

theorem evictWhile_subset (maxE maxB size : Nat) :
    ∀ (l : List (String × CacheEntry)) (mem : Int) (evs : Nat) (p : String × CacheEntry),
      p ∈ (evictWhile maxE maxB size l mem evs).1 → p ∈ l := by
  intro l
  induction l with
  | nil => intro mem evs p h; simpa [evictWhile] using h
  | cons q rest ih =>
      intro mem evs p h
      obtain ⟨k, e⟩ := q
      rw [evictWhile] at h
      by_cases hc : ((k, e) :: rest).length ≥ maxE ∨ mem + size > maxB
      · simp only [hc, if_true] at h
        exact List.mem_cons_of_mem _ (ih _ _ _ h)
      · simp only [hc, if_false] at h
        exact h

theorem removeExisting_lookup (c : OptimizedConfigCache) (key : String) :
    alistLookup (c.removeExisting key).cache key = none := by
  unfold removeExisting
  cases h : alistLookup c.cache key with
  | some old => simpa using alistLookup_filterOut c.cache key
  | none => simpa using h

/-- After `put key value`, looking the key up yields exactly the freshly
inserted entry. -/
theorem put_lookup_self (c : OptimizedConfigCache) (key : String) (value : JValue)
    (ttl : Option Int) (now : Int) :
    alistLookup (c.put key value ttl now).cache key =
      some { value := value, timestamp := now, access_count := 1
             size_bytes := calculate_size value } := by
  show alistLookup
    ((evictWhile (c.removeExisting key).max_entries (c.removeExisting key).max_memory_bytes
        (calculate_size value) (c.removeExisting key).cache
        (c.removeExisting key).memory_usage (c.removeExisting key).evictions).1
      ++ [(key, _)]) key = _
  rw [alistLookup_append]
  have hnone : alistLookup
      (evictWhile (c.removeExisting key).max_entries (c.removeExisting key).max_memory_bytes
        (calculate_size value) (c.removeExisting key).cache
        (c.removeExisting key).memory_usage (c.removeExisting key).evictions).1 key = none := by
    rw [alistLookup_eq_none_iff]
    intro p hp
    have hmem := evictWhile_subset _ _ _ _ _ _ _ hp
    have h2 := (alistLookup_eq_none_iff _ _).mp (removeExisting_lookup c key)
    exact h2 p hmem
  rw [hnone]
  simp [alistLookup]

end OptimizedConfigCache

/-- C10: the `ttl_seconds` parameter of `OptimizedConfigCache.put` has no
effect on behaviour: for every cache state, key and value, two puts that
differ only in their ttl argument produce identical states, every subsequent
operation sequence evolves identically and every subsequent `get` returns
identical results; moreover `get` never drops an entry, so entries are never
expired by elapsed time. -/
theorem put_ttl_irrelevant (c : OptimizedConfigCache) (key : String) (value : JValue)
    (t1 t2 : Option Int) (now : Int) :
    c.put key value t1 now = c.put key value t2 now ∧
    (∀ ops : List CacheOp,
        runCacheOps (c.put key value t1 now) ops
          = runCacheOps (c.put key value t2 now) ops) ∧
    (∀ (ops : List CacheOp) (k : String),
        ((runCacheOps (c.put key value t1 now) ops).get k).1
          = ((runCacheOps (c.put key value t2 now) ops).get k).1) ∧
    (∀ (d : OptimizedConfigCache) (k k2 : String),
        (alistLookup ((d.get k).2.cache) k2).isSome
          = (alistLookup d.cache k2).isSome) := by
  refine ⟨rfl, fun _ => rfl, fun _ _ => rfl, ?_⟩
  intro d k k2
  unfold OptimizedConfigCache.get
  cases h : alistLookup d.cache k with
  | none => rfl
  | some e =>
      simp only []
      rw [OptimizedConfigCache.moveToEnd, alistLookup_append]
      by_cases hk : k2 = k
      · subst hk
        rw [alistLookup_filterOut]
        simp [alistLookup, h]
      · rw [alistLookup_filterOut_ne _ _ _ hk]
        cases h2 : alistLookup d.cache k2 with
        | some w => simp
        | none =>
            simp only [h2, alistLookup]
            simp only [if_neg (fun hh : k = k2 => hk hh.symm)]

/-- C7 counterexample: storing the empty-like value `None` under a key and
reading it back yields exactly the same result as a `get` on a key that is
absent from the cache (Python `None` both times), so the two are not
distinguishable by the returned value. -/
theorem stored_none_equals_miss :
    ((((OptimizedConfigCache.init 100 1000).put "k" .null none 0).get "k").1
        = ((OptimizedConfigCache.init 100 1000).get "k").1) ∧
    alistLookup (OptimizedConfigCache.init 100 1000).cache "k" = none :=
  ⟨rfl, rfl⟩

/-- C7 (amended): a `get` immediately after `put(k, v)` always hits — it
returns the stored value and bumps the hit counter, never the miss counter,
for every value including empty-like ones (`{}`, `[]`, `None`) — and its
returned value is distinguishable from that of a `get` on an absent key for
every stored value except `None`, whose returned value coincides with the
miss result `None`. -/
theorem get_after_put_hits (c : OptimizedConfigCache) (key : String) (value : JValue)
    (ttl : Option Int) (now : Int) :
    (((c.put key value ttl now).get key).1 = value) ∧
    (((c.put key value ttl now).get key).2.hits = (c.put key value ttl now).hits + 1) ∧
    (((c.put key value ttl now).get key).2.misses = (c.put key value ttl now).misses) ∧
    (∀ (d : OptimizedConfigCache) (k : String), alistLookup d.cache k = none →
        (d.get k).1 = .null ∧ (d.get k).2.misses = d.misses + 1 ∧
        (d.get k).2.hits = d.hits) ∧
    (value ≠ .null → ∀ (d : OptimizedConfigCache) (k : String),
        alistLookup d.cache k = none →
        ((c.put key value ttl now).get key).1 ≠ (d.get k).1) := by
  have hlook := OptimizedConfigCache.put_lookup_self c key value ttl now
  have hmiss : ∀ (d : OptimizedConfigCache) (k : String), alistLookup d.cache k = none →
      (d.get k).1 = .null ∧ (d.get k).2.misses = d.misses + 1 ∧
      (d.get k).2.hits = d.hits := by
    intro d k h
    unfold OptimizedConfigCache.get
    rw [h]
    exact ⟨rfl, rfl, rfl⟩
  have hhit : (((c.put key value ttl now).get key).1 = value) ∧
      (((c.put key value ttl now).get key).2.hits = (c.put key value ttl now).hits + 1) ∧
      (((c.put key value ttl now).get key).2.misses = (c.put key value ttl now).misses) := by
    unfold OptimizedConfigCache.get
    rw [hlook]
    exact ⟨rfl, rfl, rfl⟩
  refine ⟨hhit.1, hhit.2.1, hhit.2.2, hmiss, ?_⟩
  intro hv d k h
  rw [hhit.1, (hmiss d k h).1]
  exact hv

/-- Witness for the C7 theorem at concrete inputs: a stored `"x"` is read
back as `"x"` with a hit, while a `get` on the absent key `"zz"` yields
`None` with a miss, and the two results differ. -/
theorem get_after_put_hits_witness :
    ((((OptimizedConfigCache.init 100 2).put "a" (.str "x") none 0).get "a").1 = .str "x") ∧
    (((OptimizedConfigCache.init 100 2).get "zz").1 = .null) ∧
    ((((OptimizedConfigCache.init 100 2).put "a" (.str "x") none 0).get "a").1
        ≠ ((OptimizedConfigCache.init 100 2).get "zz").1) :=
  ⟨(get_after_put_hits (OptimizedConfigCache.init 100 2) "a" (.str "x") none 0).1,
   ((get_after_put_hits (OptimizedConfigCache.init 100 2) "a" (.str "x") none 0).2.2.2.1
      (OptimizedConfigCache.init 100 2) "zz" rfl).1,
   (get_after_put_hits (OptimizedConfigCache.init 100 2) "a" (.str "x") none 0).2.2.2.2
      (fun h => JValue.noConfusion h) (OptimizedConfigCache.init 100 2) "zz" rfl⟩

theorem pyLookup_pySet_self (d : PyDict) (k : String) (v : JValue) :
    pyLookup (pySet d k v) k = some v :=
  alistLookup_alistSet_self d k v

theorem pyLookup_pySet_ne (d : PyDict) (k k2 : String) (v : JValue) (h : k ≠ k2) :
    pyLookup (pySet d k v) k2 = pyLookup d k2 :=
  alistLookup_alistSet_ne d k k2 v h

theorem pyLookup_setdefault_self (d : PyDict) (k : String) (v : JValue) :
    pyLookup (pySetdefault d k v) k = some ((pyLookup d k).getD v) := by
  unfold pySetdefault pyHasKey
  cases h : pyLookup d k with
  | some w => simp [h]
  | none =>
      simp only [h, Option.isSome_none, Bool.false_eq_true, if_false, Option.getD_none]
      unfold pyLookup at h ⊢
      rw [alistLookup_append, h]
      simp [alistLookup]

/-- The metadata triple written by `save_config`:
`{'created': now, 'version': "1.0", 'format': fmt}` assigned over `md`. -/
theorem pyLookup_update3 (md : PyDict) (now fmtv : String) :
    pyLookup (pyUpdate md
        [("created", .str now), ("version", .str "1.0"), ("format", .str fmtv)])
        "created" = some (.str now) ∧
    pyLookup (pyUpdate md
        [("created", .str now), ("version", .str "1.0"), ("format", .str fmtv)])
        "version" = some (.str "1.0") ∧
    pyLookup (pyUpdate md
        [("created", .str now), ("version", .str "1.0"), ("format", .str fmtv)])
        "format" = some (.str fmtv) ∧
    ∀ k2, k2 ≠ "created" → k2 ≠ "version" → k2 ≠ "format" →
      pyLookup (pyUpdate md
          [("created", .str now), ("version", .str "1.0"), ("format", .str fmtv)])
          k2 = pyLookup md k2 := by
  have hdef : pyUpdate md
      [("created", .str now), ("version", .str "1.0"), ("format", .str fmtv)]
      = pySet (pySet (pySet md "created" (.str now)) "version" (.str "1.0"))
          "format" (.str fmtv) := rfl
  rw [hdef]
  refine ⟨?_, ?_, ?_, ?_⟩
  · rw [pyLookup_pySet_ne _ _ _ _ (by decide), pyLookup_pySet_ne _ _ _ _ (by decide),
        pyLookup_pySet_self]
  · rw [pyLookup_pySet_ne _ _ _ _ (by decide), pyLookup_pySet_self]
  · rw [pyLookup_pySet_self]
  · intro k2 h1 h2 h3
    rw [pyLookup_pySet_ne _ _ _ _ (fun hh => h3 hh.symm),
        pyLookup_pySet_ne _ _ _ _ (fun hh => h2 hh.symm),
        pyLookup_pySet_ne _ _ _ _ (fun hh => h1 hh.symm)]

/-- C1 (amended): `save_config` always sets `metadata.created` to the time of
this save (overwriting any pre-existing `created`), sets `version` and
`format`, and never touches `updated` — a pre-existing `updated` is carried
over unchanged and none is added otherwise. The written file and the
refreshed cache entry both carry this metadata block. -/
theorem save_config_overwrites_created (st : FileConfigManager) (name : String)
    (data : PyDict) (fmt : Option String) (now : String) (md : PyDict)
    (hmd : pyLookup data "_metadata" = some (.obj md) ∨
           (pyLookup data "_metadata" = none ∧ md = [])) :
    ∃ st2 : FileConfigManager,
      st.save_config name data fmt now =
        .ok (st.config_dir ++ "/" ++
          (if st.resolveFormat fmt = "yaml" then name ++ ".yaml" else name ++ ".json"),
          st2) ∧
      ∃ md2 : PyDict,
        alistLookup st2.config_cache name =
          some (pySet (pySetdefault data "_metadata" (.obj [])) "_metadata" (.obj md2)) ∧
        alistLookup st2.files
          (if st.resolveFormat fmt = "yaml" then name ++ ".yaml" else name ++ ".json") =
          some (pySet (pySetdefault data "_metadata" (.obj [])) "_metadata" (.obj md2)) ∧
        pyLookup md2 "created" = some (.str now) ∧
        pyLookup md2 "version" = some (.str "1.0") ∧
        pyLookup md2 "format" = some (.str (st.resolveFormat fmt)) ∧
        pyLookup md2 "updated" = pyLookup md "updated" := by
  have hscrut : pyLookup (pySetdefault data "_metadata" (.obj [])) "_metadata"
      = some (.obj md) := by
    rcases hmd with h | ⟨h, hmdnil⟩
    · rw [pyLookup_setdefault_self, h]
      rfl
    · rw [pyLookup_setdefault_self, h, hmdnil]
      rfl
  have h3 := pyLookup_update3 md now (st.resolveFormat fmt)
  refine ⟨{ st with
      files := alistSet st.files
        (if st.resolveFormat fmt = "yaml" then name ++ ".yaml" else name ++ ".json")
        (pySet (pySetdefault data "_metadata" (.obj [])) "_metadata"
          (.obj (pyUpdate md
            [("created", .str now), ("version", .str "1.0"),
             ("format", .str (st.resolveFormat fmt))])))
      config_cache := alistSet st.config_cache name
        (pySet (pySetdefault data "_metadata" (.obj [])) "_metadata"
          (.obj (pyUpdate md
            [("created", .str now), ("version", .str "1.0"),
             ("format", .str (st.resolveFormat fmt))]))) },
    ?_, pyUpdate md
      [("created", .str now), ("version", .str "1.0"),
       ("format", .str (st.resolveFormat fmt))], ?_, ?_, h3.1, h3.2.1, h3.2.2.1, ?_⟩
  · simp only [FileConfigManager.save_config, hscrut]
  · exact alistLookup_alistSet_self _ _ _
  · exact alistLookup_alistSet_self _ _ _
  · exact h3.2.2.2 "updated" (by decide) (by decide) (by decide)

/-- The document written by a concrete save whose input already carries a
`created` timestamp. -/
def savedDocC1 : PyDict :=
  match FileConfigManager.save_config (FileConfigManager.initFM "config" "json") "app"
      [("x", .num 1),
       ("_metadata", .obj [("created", .str "2024-01-01T00:00:00")])]
      none "2024-01-02T00:00:00" with
  | .ok (_, st2) => (alistLookup st2.files "app.json").getD []
  | .error _ => []

/-- The metadata block of `savedDocC1`. -/
def savedMdC1 : PyDict :=
  match pyLookup savedDocC1 "_metadata" with
  | some (.obj m) => m
  | _ => []

/-- C1 counterexample: saving a document that already carries
`metadata.created = "2024-01-01T00:00:00"` at time `"2024-01-02T00:00:00"`
produces a metadata block whose `created` is the new time — the pre-existing
`created` is not preserved — and which has no `updated` entry at all, so
`updated` is not refreshed by the save. -/
theorem save_config_created_counterexample :
    pyLookup savedMdC1 "created" = some (.str "2024-01-02T00:00:00") ∧
    some (JValue.str "2024-01-02T00:00:00") ≠ some (JValue.str "2024-01-01T00:00:00") ∧
    pyLookup savedMdC1 "updated" = none := by
  refine ⟨rfl, ?_, rfl⟩
  intro h
  simp at h

/-- Witness for the C1 theorem at a concrete input: the same save as the
counterexample, performed through the theorem. -/
theorem save_config_overwrites_created_witness :
    ∃ st2 : FileConfigManager,
      FileConfigManager.save_config (FileConfigManager.initFM "config" "json") "app"
          [("x", .num 1),
           ("_metadata", .obj [("created", .str "2024-01-01T00:00:00"),
                               ("updated", .str "2024-01-01T12:00:00")])]
          none "2024-01-02T00:00:00" =
        .ok ("config" ++ "/" ++
          (if (FileConfigManager.initFM "config" "json").resolveFormat none = "yaml"
           then "app" ++ ".yaml" else "app" ++ ".json"), st2) ∧
      ∃ md2 : PyDict,
        alistLookup st2.config_cache "app" =
          some (pySet (pySetdefault
            [("x", .num 1),
             ("_metadata", .obj [("created", .str "2024-01-01T00:00:00"),
                                 ("updated", .str "2024-01-01T12:00:00")])]
            "_metadata" (.obj [])) "_metadata" (.obj md2)) ∧
        alistLookup st2.files
          (if (FileConfigManager.initFM "config" "json").resolveFormat none = "yaml"
           then "app" ++ ".yaml" else "app" ++ ".json") =
          some (pySet (pySetdefault
            [("x", .num 1),
             ("_metadata", .obj [("created", .str "2024-01-01T00:00:00"),
                                 ("updated", .str "2024-01-01T12:00:00")])]
            "_metadata" (.obj [])) "_metadata" (.obj md2)) ∧
        pyLookup md2 "created" = some (.str "2024-01-02T00:00:00") ∧
        pyLookup md2 "version" = some (.str "1.0") ∧
        pyLookup md2 "format" =
          some (.str ((FileConfigManager.initFM "config" "json").resolveFormat none)) ∧
        pyLookup md2 "updated" =
          pyLookup [("created", .str "2024-01-01T00:00:00"),
                    ("updated", .str "2024-01-01T12:00:00")] "updated" :=
  save_config_overwrites_created (FileConfigManager.initFM "config" "json") "app"
    [("x", .num 1),
     ("_metadata", .obj [("created", .str "2024-01-01T00:00:00"),
                         ("updated", .str "2024-01-01T12:00:00")])]
    none "2024-01-02T00:00:00"
    [("created", .str "2024-01-01T00:00:00"), ("updated", .str "2024-01-01T12:00:00")]
    (Or.inl rfl)

/-- `load_config` can only fail with `FileNotFoundError`. -/
theorem load_config_error_shape (st : FileConfigManager) (name : String)
    (use_cache : Bool) (e : PyError) :
    st.load_config name use_cache = .error e →
    e = .fileNotFound ("Configuration '" ++ name ++ "' not found in " ++ st.config_dir) := by
  unfold FileConfigManager.load_config
  cases hc : (if use_cache then alistLookup st.config_cache name else none) with
  | some d => intro h; cases h
  | none =>
      cases hp : FileConfigManager.probeExts st.files name ["json", "yaml", "yml"] with
      | some p => intro h; cases h
      | none =>
          intro h
          cases h
          rfl

/-- C9: with no usable cache entry, `load_config` probes `<name>.json`,
`<name>.yaml`, `<name>.yml` in exactly that order, returns the first match
(caching it), and raises `FileNotFoundError` when none matches; and
`get_global_config` never raises — on any `FileNotFoundError` from loading
`"global"` it returns the hardcoded default document instead. -/
theorem load_probe_order_and_global_default (st : FileConfigManager) (name : String)
    (use_cache : Bool)
    (hnc : use_cache = false ∨ alistLookup st.config_cache name = none) :
    (FileConfigManager.probeExts st.files name ["json", "yaml", "yml"] =
      (match alistLookup st.files (name ++ "." ++ "json") with
       | some d => some (name ++ "." ++ "json", d)
       | none =>
         match alistLookup st.files (name ++ "." ++ "yaml") with
         | some d => some (name ++ "." ++ "yaml", d)
         | none =>
           match alistLookup st.files (name ++ "." ++ "yml") with
           | some d => some (name ++ "." ++ "yml", d)
           | none => none)) ∧
    (st.load_config name use_cache =
      (match FileConfigManager.probeExts st.files name ["json", "yaml", "yml"] with
       | some (_, d) =>
           .ok (d, { st with config_cache := alistSet st.config_cache name d })
       | none =>
           .error (.fileNotFound
             ("Configuration '" ++ name ++ "' not found in " ++ st.config_dir)))) ∧
    (∀ cs : ConfigService, ∃ r, cs.get_global_config = .ok r) ∧
    (∀ cs : ConfigService,
        cs.config_manager.load_config "global" true =
          .error (.fileNotFound
            ("Configuration '" ++ "global" ++ "' not found in "
              ++ cs.config_manager.config_dir)) →
        cs.get_global_config = .ok (ConfigService.defaultGlobalConfig, cs)) := by
  have hload : ∀ (st0 : FileConfigManager) (n : String) (u : Bool),
      (u = false ∨ alistLookup st0.config_cache n = none) →
      st0.load_config n u =
        (match FileConfigManager.probeExts st0.files n ["json", "yaml", "yml"] with
         | some (_, d) =>
             .ok (d, { st0 with config_cache := alistSet st0.config_cache n d })
         | none =>
             .error (.fileNotFound
               ("Configuration '" ++ n ++ "' not found in " ++ st0.config_dir))) := by
    intro st0 n u hu
    unfold FileConfigManager.load_config
    have hc : (if u then alistLookup st0.config_cache n else none) = none := by
      rcases hu with h | h
      · rw [h]; rfl
      · cases u <;> simp [h]
    rw [hc]
  refine ⟨rfl, hload st name use_cache hnc, ?_, ?_⟩
  · intro cs
    unfold ConfigService.get_global_config ConfigService.load_config
    cases h : cs.config_manager.load_config "global" true with
    | ok r => exact ⟨_, rfl⟩
    | error e =>
        have he := load_config_error_shape _ _ _ _ h
        subst he
        exact ⟨_, rfl⟩
  · intro cs h
    unfold ConfigService.get_global_config ConfigService.load_config
    rw [h]

/-- Witness for the C9 theorem: a manager whose directory holds both
`app.yaml` and `app.yml` (and no `app.json`) loads the `yaml` variant, and a
service with no files at all gets the default global document. -/
theorem load_probe_order_and_global_default_witness :
    (FileConfigManager.load_config
        { config_dir := "config", default_format := "json"
          files := [("app.yml", [("v", .num 2)]), ("app.yaml", [("v", .num 1)])]
          config_cache := [] } "app" true =
      .ok ([("v", .num 1)],
        { config_dir := "config", default_format := "json"
          files := [("app.yml", [("v", .num 2)]), ("app.yaml", [("v", .num 1)])]
          config_cache := [("app", [("v", .num 1)])] })) ∧
    (ConfigService.get_global_config
        { config_manager := FileConfigManager.initFM "config" "json"
          service_registry := ServiceRegistry.initSR "service_registry.json" 300
          service_name := "config-coordination" } =
      .ok (ConfigService.defaultGlobalConfig,
        { config_manager := FileConfigManager.initFM "config" "json"
          service_registry := ServiceRegistry.initSR "service_registry.json" 300
          service_name := "config-coordination" })) := by
  constructor
  · have h := (load_probe_order_and_global_default
      { config_dir := "config", default_format := "json"
        files := [("app.yml", [("v", .num 2)]), ("app.yaml", [("v", .num 1)])]
        config_cache := [] } "app" true (Or.inr rfl)).2.1
    rw [h]
    rfl
  · exact (load_probe_order_and_global_default
      (FileConfigManager.initFM "config" "json") "x" true (Or.inr rfl)).2.2.2
      { config_manager := FileConfigManager.initFM "config" "json"
        service_registry := ServiceRegistry.initSR "service_registry.json" 300
        service_name := "config-coordination" } rfl

/-- In a list with unique keys, two members sharing a key are the same pair. -/
theorem eq_of_mem_of_keys_nodup {α : Type} {l : List (String × α)}
    (h : (l.map Prod.fst).Nodup) {p q : String × α}
    (hp : p ∈ l) (hq : q ∈ l) (hk : p.1 = q.1) : p = q := by
  induction l with
  | nil => cases hp
  | cons x rest ih =>
      have hnd := List.nodup_cons.mp h
      rcases List.mem_cons.mp hp with hpx | hpr
      · rcases List.mem_cons.mp hq with hqx | hqr
        · rw [hpx, hqx]
        · refine absurd ?_ hnd.1
          rw [← hpx, hk]
          exact List.mem_map_of_mem Prod.fst hqr
      · rcases List.mem_cons.mp hq with hqx | hqr
        · refine absurd ?_ hnd.1
          rw [← hqx, ← hk]
          exact List.mem_map_of_mem Prod.fst hpr
        · exact ih hnd.2 hpr hqr

theorem mem_alistSet_self {α : Type} (l : List (String × α)) (k : String) (v : α) :
    (k, v) ∈ alistSet l k v := by
  induction l with
  | nil => simp [alistSet]
  | cons p rest ih =>
      obtain ⟨k2, w⟩ := p
      by_cases h : k2 = k
      · subst h
        simp [alistSet]
      · simp only [alistSet, if_neg h]
        exact List.mem_cons_of_mem _ ih

theorem keys_alistSet {α : Type} (l : List (String × α)) (k : String) (v : α) :
    (alistSet l k v).map Prod.fst =
      (if (alistLookup l k).isSome then l.map Prod.fst else l.map Prod.fst ++ [k]) := by
  induction l with
  | nil => simp [alistSet, alistLookup]
  | cons p rest ih =>
      obtain ⟨k2, w⟩ := p
      by_cases h : k2 = k
      · simp [alistSet, alistLookup, h]
      · simp only [alistSet, if_neg h, alistLookup, List.map_cons, ih]
        by_cases h2 : (alistLookup rest k).isSome
        · simp [h, h2]
        · simp [h, h2]

theorem keys_nodup_alistSet {α : Type} (l : List (String × α)) (k : String) (v : α)
    (h : (l.map Prod.fst).Nodup) : ((alistSet l k v).map Prod.fst).Nodup := by
  rw [keys_alistSet]
  by_cases h2 : (alistLookup l k).isSome
  · simpa [h2] using h
  · have hnone : alistLookup l k = none := Option.not_isSome_iff_eq_none.mp h2
    have hk : k ∉ l.map Prod.fst := by
      intro hmem
      rcases List.mem_map.mp hmem with ⟨p, hp, hk2⟩
      exact ((alistLookup_eq_none_iff l k).mp hnone p hp) hk2
    rw [if_neg h2, List.nodup_append]
    refine ⟨h, List.nodup_singleton k, ?_⟩
    intro a ha ham
    exact hk ((List.mem_singleton.mp ham) ▸ ha)

theorem alistLookup_some_mem {α : Type} {l : List (String × α)} {k : String} {v : α}
    (h : alistLookup l k = some v) : (k, v) ∈ l := by
  induction l with
  | nil => cases h
  | cons p rest ih =>
      obtain ⟨k2, w⟩ := p
      by_cases h2 : k2 = k
      · subst h2
        rw [alistLookup, if_pos rfl] at h
        cases h
        exact List.mem_cons_self _ _
      · rw [alistLookup, if_neg h2] at h
        exact List.mem_cons_of_mem _ (ih h)

/-- With unique keys, deleting by collected stale names is the same as
filtering out the stale records. -/
theorem cleanup_filter_eq (l : List (String × ServiceInfo)) (ttl now : Int)
    (hnd : (l.map Prod.fst).Nodup) :
    l.filter (fun kv =>
        !(((l.filter (fun kv2 => ServiceRegistry.isStale ttl now kv2.2)).map
            Prod.fst).contains kv.1))
      = l.filter (fun kv => !ServiceRegistry.isStale ttl now kv.2) := by
  apply List.filter_congr
  intro kv hkv
  congr 1
  rw [Bool.eq_iff_iff]
  constructor
  · intro hc
    have hmem : kv.1 ∈ (l.filter
        (fun kv2 => ServiceRegistry.isStale ttl now kv2.2)).map Prod.fst := by
      simpa using hc
    rcases List.mem_map.mp hmem with ⟨q, hq, hqk⟩
    have hq2 := List.mem_filter.mp hq
    have : q = kv := eq_of_mem_of_keys_nodup hnd hq2.1 hkv hqk
    exact this ▸ hq2.2
  · intro hs
    have : kv ∈ l.filter (fun kv2 => ServiceRegistry.isStale ttl now kv2.2) :=
      List.mem_filter.mpr ⟨hkv, hs⟩
    simpa using List.mem_map_of_mem Prod.fst this


/-- C4: `cleanup_stale_services` removes exactly the records whose heartbeat
age exceeds the TTL (default 300 s), returns the number removed, and rewrites
the registry file iff at least one record was removed; both
`get_active_services` and `get_registry_status` run it first, so a stale
record is absent from those reads while a freshly registered record (age
within the TTL) is present. -/
theorem cleanup_stale_services_exact (st : ServiceRegistry) (now : Int)
    (hnd : (st.services.map Prod.fst).Nodup)
    (hwf : ∀ kv ∈ st.services, kv.2.name = kv.1) :
    ((st.cleanup_stale_services now).1.services
        = st.services.filter (fun kv => !ServiceRegistry.isStale st.heartbeat_timeout now kv.2)) ∧
    ((st.cleanup_stale_services now).2
        = (st.services.filter (fun kv => ServiceRegistry.isStale st.heartbeat_timeout now kv.2)).length) ∧
    (st.services.filter (fun kv => ServiceRegistry.isStale st.heartbeat_timeout now kv.2) = [] →
        (st.cleanup_stale_services now).1 = st) ∧
    (st.services.filter (fun kv => ServiceRegistry.isStale st.heartbeat_timeout now kv.2) ≠ [] →
        (st.cleanup_stale_services now).1.save_count = st.save_count + 1 ∧
        (st.cleanup_stale_services now).1.file_content
          = some (st.services.filter
              (fun kv => !ServiceRegistry.isStale st.heartbeat_timeout now kv.2), now)) ∧
    ServiceRegistry.defaultHeartbeatTimeout = 300 ∧
    ((st.get_active_services now).2 = (st.cleanup_stale_services now).1 ∧
     (st.get_registry_status now).2 = (st.cleanup_stale_services now).1) ∧
    (∀ (name : String) (info : ServiceInfo),
        alistLookup st.services name = some info →
        ServiceRegistry.isStale st.heartbeat_timeout now info = true →
        alistLookup (st.cleanup_stale_services now).1.services name = none ∧
        ∀ s ∈ (st.get_active_services now).1, s.name ≠ name) ∧
    (∀ (name host : String) (port : Int) (stype ver : String) (he : Option String)
        (meta : Option PyDict) (t1 t2 : Int),
        t2 - t1 ≤ st.heartbeat_timeout →
        ({ name := name, host := host, port := port, status := "active"
           service_type := stype, version := ver, health_endpoint := he
           metadata := some (meta.getD []), registered_at := some t1
           last_heartbeat := some t1 } : ServiceInfo)
          ∈ ((st.register_service name host port stype ver he meta t1).2.get_active_services t2).1) := by
  have hserv : ∀ (st0 : ServiceRegistry) (tm : Int), (st0.services.map Prod.fst).Nodup →
      (st0.cleanup_stale_services tm).1.services
        = st0.services.filter (fun kv => !ServiceRegistry.isStale st0.heartbeat_timeout tm kv.2) := by
    intro st0 tm hnd0
    unfold ServiceRegistry.cleanup_stale_services
    by_cases hif : (((st0.services.filter
        (fun kv => ServiceRegistry.isStale st0.heartbeat_timeout tm kv.2)).map
          Prod.fst).isEmpty)
    · simp only [hif, if_true]
      exact cleanup_filter_eq st0.services st0.heartbeat_timeout tm hnd0
    · simp only [hif, if_false]
      unfold ServiceRegistry.save_registry
      exact cleanup_filter_eq st0.services st0.heartbeat_timeout tm hnd0
  have hcount : (st.cleanup_stale_services now).2
      = (st.services.filter (fun kv => ServiceRegistry.isStale st.heartbeat_timeout now kv.2)).length := by
    unfold ServiceRegistry.cleanup_stale_services
    by_cases hif : (((st.services.filter
        (fun kv => ServiceRegistry.isStale st.heartbeat_timeout now kv.2)).map
          Prod.fst).isEmpty)
    · simp only [hif, if_true, List.length_map]
    · simp only [hif, if_false, List.length_map]
  refine ⟨hserv st now hnd, hcount, ?_, ?_, rfl, ⟨rfl, rfl⟩, ?_, ?_⟩
  · intro hempty
    unfold ServiceRegistry.cleanup_stale_services
    rw [hempty]
    simp only [List.map_nil, List.isEmpty_nil, if_true]
    have hfe : st.services.filter
        (fun kv => !(([] : List String).contains kv.1)) = st.services :=
      List.filter_eq_self.mpr (fun a _ => rfl)
    rw [hfe]
  · intro hne
    have hif : (((st.services.filter
        (fun kv => ServiceRegistry.isStale st.heartbeat_timeout now kv.2)).map
          Prod.fst).isEmpty) = false := by
      cases h2 : st.services.filter
          (fun kv => ServiceRegistry.isStale st.heartbeat_timeout now kv.2) with
      | nil => exact absurd h2 hne
      | cons b bs => simp [h2]
    constructor
    · unfold ServiceRegistry.cleanup_stale_services
      simp only [hif, if_false]
      rfl
    · unfold ServiceRegistry.cleanup_stale_services
      simp only [hif, if_false]
      unfold ServiceRegistry.save_registry
      show some (st.services.filter (fun kv =>
          !(((st.services.filter (fun kv2 =>
              ServiceRegistry.isStale st.heartbeat_timeout now kv2.2)).map
                Prod.fst).contains kv.1)), now) = _
      rw [cleanup_filter_eq st.services st.heartbeat_timeout now hnd]
  · intro name info hlook hstale
    have habs : alistLookup (st.cleanup_stale_services now).1.services name = none := by
      rw [hserv st now hnd, alistLookup_eq_none_iff]
      intro p hp hpk
      have hp2 := List.mem_filter.mp hp
      have hpl : p = (name, info) :=
        eq_of_mem_of_keys_nodup hnd hp2.1 (alistLookup_some_mem hlook) hpk
      have hfalse : ServiceRegistry.isStale st.heartbeat_timeout now p.2 = false := by
        have := hp2.2
        simp only [Bool.not_eq_true'] at this
        exact this
      rw [hpl] at hfalse
      rw [hstale] at hfalse
      cases hfalse
    refine ⟨habs, ?_⟩
    intro s hs hname
    simp only [ServiceRegistry.get_active_services] at hs
    have hs2 := List.mem_filter.mp hs
    rcases List.mem_map.mp hs2.1 with ⟨kv, hkv, hkvs⟩
    have hkvmem : kv ∈ st.services := by
      rw [hserv st now hnd] at hkv
      exact (List.mem_filter.mp hkv).1
    have hkname : kv.1 = name := by
      rw [← hwf kv hkvmem, hkvs, hname]
    exact ((alistLookup_eq_none_iff _ _).mp habs kv hkv) hkname
  · intro name host port stype ver he meta t1 t2 hle
    set r : ServiceInfo :=
      { name := name, host := host, port := port, status := "active"
        service_type := stype, version := ver, health_endpoint := he
        metadata := some (meta.getD []), registered_at := some t1
        last_heartbeat := some t1 } with hr
    have hreg : (st.register_service name host port stype ver he meta t1).2.services
        = alistSet st.services name r := rfl
    have httl : (st.register_service name host port stype ver he meta t1).2.heartbeat_timeout
        = st.heartbeat_timeout := rfl
    have hnd1 : ((st.register_service name host port stype ver he meta t1).2.services.map
        Prod.fst).Nodup := by
      rw [hreg]
      exact keys_nodup_alistSet st.services name _ hnd
    simp only [ServiceRegistry.get_active_services]
    apply List.mem_filter.mpr
    refine ⟨?_, rfl⟩
    apply List.mem_map.mpr
    refine ⟨(name, r), ?_, rfl⟩
    rw [hserv _ t2 hnd1]
    apply List.mem_filter.mpr
    constructor
    · rw [hreg]
      exact mem_alistSet_self _ _ _
    · rw [httl]
      show (!ServiceRegistry.isStale st.heartbeat_timeout t2 r) = true
      rw [hr]
      unfold ServiceRegistry.isStale
      simp only [Bool.not_eq_true', decide_eq_false_iff_not]
      omega

/-- A concrete registry: `old` last heartbeated at t=0, `fresh` at t=900. -/
def oldInfoC4 : ServiceInfo :=
  { name := "old", host := "h1", port := 8001, status := "active"
    service_type := "api", version := "1.0", health_endpoint := none
    metadata := some [], registered_at := some 0, last_heartbeat := some 0 }

def freshInfoC4 : ServiceInfo :=
  { name := "fresh", host := "h2", port := 8002, status := "active"
    service_type := "worker", version := "1.0", health_endpoint := none
    metadata := some [], registered_at := some 900, last_heartbeat := some 900 }

def regC4 : ServiceRegistry :=
  { registry_file := "service_registry.json", heartbeat_timeout := 300
    services := [("old", oldInfoC4), ("fresh", freshInfoC4)]
    file_content := none, save_count := 0 }

/-- Witness for the C4 theorem at time t=1000: `old` (age 1000 > 300) is
reaped and absent from the active read; a service registered at t=900 is
present at t=1000. -/
theorem cleanup_stale_services_exact_witness :
    (regC4.services.map Prod.fst).Nodup ∧
    (∀ kv ∈ regC4.services, kv.2.name = kv.1) ∧
    ((regC4.cleanup_stale_services 1000).1.services
        = regC4.services.filter
            (fun kv => !ServiceRegistry.isStale regC4.heartbeat_timeout 1000 kv.2)) ∧
    (∀ s ∈ (regC4.get_active_services 1000).1, s.name ≠ "old") ∧
    ({ name := "svc", host := "h3", port := 8003, status := "active"
       service_type := "api", version := "1.0", health_endpoint := none
       metadata := some ([] : PyDict), registered_at := some 900
       last_heartbeat := some 900 } : ServiceInfo)
      ∈ ((regC4.register_service "svc" "h3" 8003 "api" "1.0" none
            (some ([] : PyDict)) 900).2.get_active_services 1000).1 := by
  have hnd : (regC4.services.map Prod.fst).Nodup := by decide
  have hwf : ∀ kv ∈ regC4.services, kv.2.name = kv.1 := by decide
  have h := cleanup_stale_services_exact regC4 1000 hnd hwf
  exact ⟨hnd, hwf, h.1,
    (h.2.2.2.2.2.2.1 "old" oldInfoC4 rfl (by decide)).2,
    h.2.2.2.2.2.2.2 "svc" "h3" 8003 "api" "1.0" none (some ([] : PyDict)) 900 1000
      (by decide)⟩

theorem mem_alistSet_imp {α : Type} {l : List (String × α)} {k : String} {v : α}
    {kv : String × α} (h : kv ∈ alistSet l k v) : kv = (k, v) ∨ kv ∈ l := by
  induction l with
  | nil => simpa [alistSet] using h
  | cons p rest ih =>
      obtain ⟨k2, w⟩ := p
      by_cases h2 : k2 = k
      · subst h2
        rw [alistSet, if_pos rfl] at h
        rcases List.mem_cons.mp h with h3 | h3
        · exact Or.inl h3
        · exact Or.inr (List.mem_cons_of_mem _ h3)
      · rw [alistSet, if_neg h2] at h
        rcases List.mem_cons.mp h with h3 | h3
        · exact Or.inr (h3 ▸ List.mem_cons_self _ _)
        · rcases ih h3 with h4 | h4
          · exact Or.inl h4
          · exact Or.inr (List.mem_cons_of_mem _ h4)

theorem mem_alistSet_of_ne {α : Type} {l : List (String × α)} {k : String} {v : α}
    {kv : String × α} (h : kv ∈ l) (hne : kv.1 ≠ k) : kv ∈ alistSet l k v := by
  induction l with
  | nil => cases h
  | cons p rest ih =>
      obtain ⟨k2, w⟩ := p
      by_cases h2 : k2 = k
      · subst h2
        rw [alistSet, if_pos rfl]
        rcases List.mem_cons.mp h with h3 | h3
        · exact absurd (by rw [h3]) hne
        · exact List.mem_cons_of_mem _ h3
      · rw [alistSet, if_neg h2]
        rcases List.mem_cons.mp h with h3 | h3
        · exact h3 ▸ List.mem_cons_self _ _
        · exact List.mem_cons_of_mem _ (ih h3)

namespace ConfigCoordinationAPI

/-- The invocation events of the fan-out loop are exactly the subscriber ids
of the matching subscriptions that carry a callback function, in order. -/
theorem notifyLoop_invoked (config_name now : String) :
    ∀ subs : List (String × ConfigSubscription),
      (notifyLoop config_name now subs).2
        = (subs.filter (fun kv =>
            matches_patterns config_name kv.2.config_patterns
              && kv.2.has_callback_function)).map (fun kv => kv.2.subscriber_id) := by
  intro subs
  induction subs with
  | nil => rfl
  | cons p rest ih =>
      obtain ⟨k, sub⟩ := p
      rw [notifyLoop]
      by_cases hm : matches_patterns config_name sub.config_patterns
      · by_cases hc : sub.has_callback_function
        · simp only [hm, hc, if_true, List.filter_cons, Bool.and_self, List.map_cons]
          rw [ih]
          rfl
        · have hc2 : sub.has_callback_function = false := by
            cases h : sub.has_callback_function
            · rfl
            · exact absurd h hc
          simp only [hm, hc2, if_true, List.filter_cons, Bool.and_false, if_false]
          rw [ih]
          rfl
      · have hm2 : matches_patterns config_name sub.config_patterns = false := by
          cases h : matches_patterns config_name sub.config_patterns
          · rfl
          · exact absurd h hm
        simp only [hm2, List.filter_cons, Bool.false_and, if_false]
        rw [ih]
        rfl

/-- The fan-out preserves the key list of the subscription dict. -/
theorem notifyLoop_keys (config_name now : String) :
    ∀ subs : List (String × ConfigSubscription),
      (notifyLoop config_name now subs).1.map Prod.fst = subs.map Prod.fst := by
  intro subs
  induction subs with
  | nil => rfl
  | cons p rest ih =>
      obtain ⟨k, sub⟩ := p
      rw [notifyLoop]
      by_cases hm : matches_patterns config_name sub.config_patterns
      · simp [hm, ih]
      · have hm2 : matches_patterns config_name sub.config_patterns = false := by
          cases h : matches_patterns config_name sub.config_patterns
          · rfl
          · exact absurd h hm
        simp [hm2, ih]

end ConfigCoordinationAPI

/-- C2: after subscribing subscriber `a` to the glob pattern `service_*` and
subscriber `b` to `other_*`, a detected change to `service_foo` (one
`_notify_subscribers` call) invokes the callback of `a` exactly once and the
callback of `b` never. -/
theorem subscribe_service_glob_notified_once (api : ConfigCoordinationAPI)
    (a b : String) (hab : a ≠ b)
    (hnd : (api.subscriptions.map Prod.fst).Nodup)
    (hwf : ∀ kv ∈ api.subscriptions, kv.2.subscriber_id = kv.1)
    (nowS nowN : String) (mt1 mt2 : String → Int) (hbA hbB : Bool) :
    ((((api.subscribe_to_config_changes a ["service_*"] true hbA nowS
          mt1).2.subscribe_to_config_changes b ["other_*"] true hbB nowS
          mt2).2.notify_subscribers "service_foo" nowN).2.count a = 1) ∧
    ((((api.subscribe_to_config_changes a ["service_*"] true hbA nowS
          mt1).2.subscribe_to_config_changes b ["other_*"] true hbB nowS
          mt2).2.notify_subscribers "service_foo" nowN).2.count b = 0) := by
  set subA : ConfigSubscription :=
    { subscriber_id := a, config_patterns := ["service_*"]
      has_callback_url := hbA, has_callback_function := true
      created_at := nowS, last_notified := nowS } with hsubA
  set subB : ConfigSubscription :=
    { subscriber_id := b, config_patterns := ["other_*"]
      has_callback_url := hbB, has_callback_function := true
      created_at := nowS, last_notified := nowS } with hsubB
  have hinvoked : (((api.subscribe_to_config_changes a ["service_*"] true hbA nowS
          mt1).2.subscribe_to_config_changes b ["other_*"] true hbB nowS
          mt2).2.notify_subscribers "service_foo" nowN).2
      = ((alistSet (alistSet api.subscriptions a subA) b subB).filter (fun kv =>
            ConfigCoordinationAPI.matches_patterns "service_foo" kv.2.config_patterns
              && kv.2.has_callback_function)).map (fun kv => kv.2.subscriber_id) :=
    ConfigCoordinationAPI.notifyLoop_invoked "service_foo" nowN _
  have hnd2 : ((alistSet (alistSet api.subscriptions a subA) b subB).map Prod.fst).Nodup :=
    keys_nodup_alistSet _ _ _ (keys_nodup_alistSet _ _ _ hnd)
  have hwf2 : ∀ kv ∈ alistSet (alistSet api.subscriptions a subA) b subB,
      kv.2.subscriber_id = kv.1 := by
    intro kv hkv
    rcases mem_alistSet_imp hkv with h | h
    · rw [h]
    · rcases mem_alistSet_imp h with h2 | h2
      · rw [h2]
      · exact hwf kv h2
  have hmapid : ((alistSet (alistSet api.subscriptions a subA) b subB).filter (fun kv =>
          ConfigCoordinationAPI.matches_patterns "service_foo" kv.2.config_patterns
            && kv.2.has_callback_function)).map (fun kv => kv.2.subscriber_id)
      = ((alistSet (alistSet api.subscriptions a subA) b subB).filter (fun kv =>
          ConfigCoordinationAPI.matches_patterns "service_foo" kv.2.config_patterns
            && kv.2.has_callback_function)).map Prod.fst := by
    apply List.map_congr_left
    intro kv hkv
    exact hwf2 kv (List.mem_filter.mp hkv).1
  have hndf : (((alistSet (alistSet api.subscriptions a subA) b subB).filter (fun kv =>
          ConfigCoordinationAPI.matches_patterns "service_foo" kv.2.config_patterns
            && kv.2.has_callback_function)).map Prod.fst).Nodup :=
    hnd2.sublist ((List.filter_sublist _).map Prod.fst)
  have hamem : (a, subA) ∈ alistSet (alistSet api.subscriptions a subA) b subB :=
    mem_alistSet_of_ne (mem_alistSet_self _ _ _) hab
  have haf : (a, subA) ∈ (alistSet (alistSet api.subscriptions a subA) b subB).filter
      (fun kv => ConfigCoordinationAPI.matches_patterns "service_foo" kv.2.config_patterns
          && kv.2.has_callback_function) := by
    apply List.mem_filter.mpr
    refine ⟨hamem, ?_⟩
    show ConfigCoordinationAPI.matches_patterns "service_foo" ["service_*"] && true = true
    decide
  constructor
  · rw [hinvoked, hmapid]
    exact List.count_eq_one_of_mem hndf (List.mem_map_of_mem Prod.fst haf)
  · rw [hinvoked, hmapid]
    apply List.count_eq_zero_of_not_mem
    intro hbmem
    rcases List.mem_map.mp hbmem with ⟨kv, hkvf, hkvb⟩
    have hkvm := List.mem_filter.mp hkvf
    have hbmem2 : (b, subB) ∈ alistSet (alistSet api.subscriptions a subA) b subB :=
      mem_alistSet_self _ _ _
    have hkveq : kv = (b, subB) := eq_of_mem_of_keys_nodup hnd2 hkvm.1 hbmem2 hkvb
    rw [hkveq] at hkvm
    have hP : ConfigCoordinationAPI.matches_patterns "service_foo" ["other_*"] && true = true :=
      hkvm.2
    exact absurd hP (by decide)

/-- A fresh coordination API with no subscriptions. -/
def apiC2 : ConfigCoordinationAPI :=
  { advanced_config := AdvancedConfigManager.initAM "config" "json"
    base_service :=
      { config_manager := FileConfigManager.initFM "config" "json"
        service_registry := ServiceRegistry.initSR "service_registry.json" 300
        service_name := "config-coordination" }
    subscriptions := [], change_log := [] }

/-- Witness for the C2 theorem at concrete inputs. -/
theorem subscribe_service_glob_notified_once_witness :
    ("subA" ≠ "subB") ∧
    (apiC2.subscriptions.map Prod.fst).Nodup ∧
    (∀ kv ∈ apiC2.subscriptions, kv.2.subscriber_id = kv.1) ∧
    ((((apiC2.subscribe_to_config_changes "subA" ["service_*"] true false "t0"
          (fun _ => 0)).2.subscribe_to_config_changes "subB" ["other_*"] true false "t0"
          (fun _ => 0)).2.notify_subscribers "service_foo" "t1").2.count "subA" = 1) ∧
    ((((apiC2.subscribe_to_config_changes "subA" ["service_*"] true false "t0"
          (fun _ => 0)).2.subscribe_to_config_changes "subB" ["other_*"] true false "t0"
          (fun _ => 0)).2.notify_subscribers "service_foo" "t1").2.count "subB" = 0) :=
  ⟨by decide, by decide, by decide,
   (subscribe_service_glob_notified_once apiC2 "subA" "subB" (by decide) (by decide)
      (by decide) "t0" "t1" (fun _ => 0) (fun _ => 0) false false).1,
   (subscribe_service_glob_notified_once apiC2 "subA" "subB" (by decide) (by decide)
      (by decide) "t0" "t1" (fun _ => 0) (fun _ => 0) false false).2⟩

/-! ## C5: history cap -/

/-- The save operations that can touch the per-name history. -/
inductive AdvOp where
  | save (name : String) (data : PyDict) (format : Option String) (now : String)
  | saveV (name : String) (data : PyDict) (schema : Option PyDict)
      (format : Option String) (now : String)

def runAdvOp (st : AdvancedConfigManager) : AdvOp → AdvancedConfigManager
  | .save n d f t => (st.save_config n d f t).2
  | .saveV n d s f t => (st.save_config_with_validation n d s f t).2

def runAdvOps (st : AdvancedConfigManager) (ops : List AdvOp) : AdvancedConfigManager :=
  ops.foldl runAdvOp st

/-- The history entries appended for `name` by an operation sequence: one per
`save_config_with_validation` on `name` whose (optional) schema validation
passes; plain `save_config` never appends. -/
def appendedEntries (name : String) : List AdvOp → List HistoryEntry
  | [] => []
  | .save _ _ _ _ :: rest => appendedEntries name rest
  | .saveV n d s _ t :: rest =>
      let ok := if AdvancedConfigManager.schemaTruthy s then
          (AdvancedConfigManager.validate_config_schema d (s.getD [])).isOk
        else true
      if n = name ∧ ok then
        { timestamp := t, config := d,
          checksum := AdvancedConfigManager.calculate_checksum d }
          :: appendedEntries name rest
      else appendedEntries name rest

namespace AdvancedConfigManager

theorem takeLast_length_le {α : Type} (n : Nat) (l : List α) :
    (takeLast n l).length ≤ n := by
  unfold takeLast
  rw [List.length_drop]
  omega

theorem takeLast_of_length_le {α : Type} (n : Nat) (l : List α) (h : l.length ≤ n) :
    takeLast n l = l := by
  unfold takeLast
  have : l.length - n = 0 := by omega
  rw [this, List.drop_zero]

theorem takeLast_takeLast_append {α : Type} (n : Nat) (xs ys : List α) :
    takeLast n (takeLast n xs ++ ys) = takeLast n (xs ++ ys) := by
  unfold takeLast
  rw [List.drop_append_eq_append_drop, List.drop_append_eq_append_drop, List.drop_drop]
  have h1 : xs.length - n + ((List.drop (xs.length - n) xs ++ ys).length - n)
      = (xs ++ ys).length - n := by
    simp only [List.length_append, List.length_drop]
    omega
  have h2 : (List.drop (xs.length - n) xs ++ ys).length - n
        - (List.drop (xs.length - n) xs).length
      = (xs ++ ys).length - n - xs.length := by
    simp only [List.length_append, List.length_drop]
    omega
  rw [h1, h2]

theorem addStep_eq_takeLast (h : List HistoryEntry) (e : HistoryEntry)
    (hlen : h.length ≤ 50) :
    (if (h ++ [e]).length > 50 then takeLast 50 (h ++ [e]) else h ++ [e])
      = takeLast 50 (h ++ [e]) := by
  by_cases h2 : (h ++ [e]).length > 50
  · rw [if_pos h2]
  · rw [if_neg h2, takeLast_of_length_le _ _ (by simpa using Nat.le_of_not_lt h2)]

theorem add_to_history_lookup_self (st : AdvancedConfigManager) (n : String)
    (d : PyDict) (t : String) :
    (alistLookup (st.add_to_history n d t).config_history n).getD []
      = (if (((alistLookup st.config_history n).getD [])
            ++ [({ timestamp := t, config := d,
                   checksum := calculate_checksum d } : HistoryEntry)]).length > 50
         then takeLast 50 (((alistLookup st.config_history n).getD [])
            ++ [({ timestamp := t, config := d,
                   checksum := calculate_checksum d } : HistoryEntry)])
         else ((alistLookup st.config_history n).getD [])
            ++ [({ timestamp := t, config := d,
                   checksum := calculate_checksum d } : HistoryEntry)]) := by
  unfold add_to_history
  rw [alistLookup_alistSet_self]
  rfl

theorem add_to_history_lookup_ne (st : AdvancedConfigManager) (n : String)
    (d : PyDict) (t : String) (name : String) (h : n ≠ name) :
    alistLookup (st.add_to_history n d t).config_history name
      = alistLookup st.config_history name := by
  unfold add_to_history
  exact alistLookup_alistSet_ne _ _ _ _ h

/-- Plain `save_config` never touches the history (C5's second half). -/
theorem save_config_preserves_history (st : AdvancedConfigManager) (n : String)
    (d : PyDict) (f : Option String) (t : String) :
    ((st.save_config n d f t).2).config_history = st.config_history := by
  unfold save_config
  cases hs : st.toFileConfigManager.save_config n d f t with
  | ok p => rfl
  | error e => rfl

/-- The history written by `save_config_with_validation`: untouched when
validation fails, one appended (and possibly trimmed) entry otherwise. -/
theorem saveV_history (st : AdvancedConfigManager) (n : String) (d : PyDict)
    (s : Option PyDict) (f : Option String) (t : String) :
    ((st.save_config_with_validation n d s f t).2).config_history
      = (if (if schemaTruthy s then (validate_config_schema d (s.getD [])).isOk else true)
         then (st.add_to_history n d t).config_history
         else st.config_history) := by
  unfold save_config_with_validation
  by_cases hs : schemaTruthy s
  · rw [if_pos hs, if_pos hs]
    cases hv : validate_config_schema d (s.getD []) with
    | ok u =>
        cases u
        simp only [Except.isOk, Except.toBool, if_true]
        cases hsave : (st.add_to_history n d t).toFileConfigManager.save_config n d f t with
        | ok p => rfl
        | error e => rfl
    | error e =>
        simp only [Except.isOk, Except.toBool, Bool.false_eq_true, if_false]
  · rw [if_neg hs, if_neg hs]
    simp only [if_true]
    cases hsave : (st.add_to_history n d t).toFileConfigManager.save_config n d f t with
    | ok p => rfl
    | error e => rfl

end AdvancedConfigManager

/-- The entry that `_add_to_history` appends for `(data, now)`. -/
def historyEntryOf (d : PyDict) (t : String) : HistoryEntry :=
  { timestamp := t, config := d
    checksum := AdvancedConfigManager.calculate_checksum d }

/-- Running save operations from any state whose `name`-history is the
last-50 slice of a virtual full log `E` extends the slice by the appended
entries. -/
theorem runAdvOps_history (name : String) :
    ∀ (ops : List AdvOp) (st : AdvancedConfigManager) (E : List HistoryEntry),
      (alistLookup st.config_history name).getD []
          = AdvancedConfigManager.takeLast 50 E →
      (alistLookup (runAdvOps st ops).config_history name).getD []
        = AdvancedConfigManager.takeLast 50 (E ++ appendedEntries name ops) := by
  intro ops
  induction ops with
  | nil =>
      intro st E hE
      simpa [runAdvOps, appendedEntries] using hE
  | cons op rest ih =>
      intro st E hE
      have hstep : runAdvOps st (op :: rest) = runAdvOps (runAdvOp st op) rest := rfl
      rw [hstep]
      cases op with
      | save n d f t =>
          have happ : appendedEntries name (AdvOp.save n d f t :: rest)
              = appendedEntries name rest := rfl
          rw [happ]
          apply ih
          show (alistLookup ((st.save_config n d f t).2).config_history name).getD [] = _
          rw [AdvancedConfigManager.save_config_preserves_history st n d f t]
          exact hE
      | saveV n d s f t =>
          set ok := (if AdvancedConfigManager.schemaTruthy s then
              (AdvancedConfigManager.validate_config_schema d (s.getD [])).isOk
            else true) with hok
          have hhist := AdvancedConfigManager.saveV_history st n d s f t
          by_cases hokT : ok = true
          · by_cases hn : n = name
            · subst hn
              have happ : appendedEntries n (AdvOp.saveV n d s f t :: rest)
                  = historyEntryOf d t :: appendedEntries n rest := by
                rw [appendedEntries, if_pos ⟨rfl, (hok.symm.trans hokT)⟩]
                rfl
              rw [happ]
              have hE2 : (alistLookup
                    ((st.save_config_with_validation n d s f t).2).config_history n).getD []
                  = AdvancedConfigManager.takeLast 50 (E ++ [historyEntryOf d t]) := by
                rw [hhist, hok.symm.trans hokT]
                simp only [if_true]
                rw [AdvancedConfigManager.add_to_history_lookup_self, hE]
                rw [AdvancedConfigManager.addStep_eq_takeLast _ _
                    (AdvancedConfigManager.takeLast_length_le 50 E)]
                exact AdvancedConfigManager.takeLast_takeLast_append 50 E _
              have hrun := ih ((st.save_config_with_validation n d s f t).2)
                  (E ++ [historyEntryOf d t]) hE2
              rw [show runAdvOp st (AdvOp.saveV n d s f t)
                  = (st.save_config_with_validation n d s f t).2 from rfl]
              rw [hrun, List.append_assoc]
              rfl
            · have happ : appendedEntries name (AdvOp.saveV n d s f t :: rest)
                  = appendedEntries name rest := by
                rw [appendedEntries, if_neg (fun hcon => hn hcon.1)]
              rw [happ]
              apply ih
              show (alistLookup
                  ((st.save_config_with_validation n d s f t).2).config_history name).getD [] = _
              rw [hhist, hok.symm.trans hokT]
              simp only [if_true]
              rw [AdvancedConfigManager.add_to_history_lookup_ne st n d t name hn]
              exact hE
          · have hokF : ok = false := by
              cases h : ok
              · rfl
              · exact absurd h hokT
            have happ : appendedEntries name (AdvOp.saveV n d s f t :: rest)
                = appendedEntries name rest := by
              rw [appendedEntries, if_neg (fun hcon => hokT (hok.trans hcon.2))]
            rw [happ]
            apply ih
            show (alistLookup
                ((st.save_config_with_validation n d s f t).2).config_history name).getD [] = _
            rw [hhist, hok.symm.trans hokF]
            simp only [Bool.false_eq_true, if_false]
            exact hE

/-- C5: across any sequence of plain saves and history-aware saves, each
name's history is exactly the last-50 slice of everything appended for it
(oldest entries dropped first), hence never exceeds 50 entries; and a plain
`save_config` never changes the history. -/
theorem history_capped_at_50 (ops : List AdvOp) (name : String) :
    ((alistLookup (runAdvOps (AdvancedConfigManager.initAM "config" "json")
        ops).config_history name).getD []).length ≤ 50 ∧
    (alistLookup (runAdvOps (AdvancedConfigManager.initAM "config" "json")
        ops).config_history name).getD []
      = AdvancedConfigManager.takeLast 50 (appendedEntries name ops) ∧
    (∀ (st : AdvancedConfigManager) (n : String) (d : PyDict) (f : Option String)
        (t : String),
        ((st.save_config n d f t).2).config_history = st.config_history) := by
  have hbase : (alistLookup
      (AdvancedConfigManager.initAM "config" "json").config_history name).getD []
      = AdvancedConfigManager.takeLast 50 [] := rfl
  have h := runAdvOps_history name ops _ [] hbase
  rw [List.nil_append] at h
  refine ⟨?_, h, fun st n d f t =>
    AdvancedConfigManager.save_config_preserves_history st n d f t⟩
  rw [h]
  exact AdvancedConfigManager.takeLast_length_le 50 _

/-! ## C8: diff partition -/

/-- The value the `added` bucket should hold for a key: present in `config2`
only. -/
def addedVal (c1 c2 : PyDict) (k : String) : Option JValue :=
  match pyLookup c1 k, pyLookup c2 k with
  | none, some v => some v
  | _, _ => none

/-- The value the `removed` bucket should hold for a key: present in
`config1` only. -/
def removedVal (c1 c2 : PyDict) (k : String) : Option JValue :=
  match pyLookup c1 k, pyLookup c2 k with
  | some v, none => some v
  | _, _ => none

/-- The `{old, new}` record the `modified` bucket should hold for a key:
present in both with Python-unequal values. -/
def modifiedVal (c1 c2 : PyDict) (k : String) : Option JValue :=
  match pyLookup c1 k, pyLookup c2 k with
  | some v, some w => if pyEq v w then none else some (.obj [("old", v), ("new", w)])
  | _, _ => none

/-- The value the `unchanged` bucket should hold for a key: present in both
with Python-equal values. -/
def unchangedVal (c1 c2 : PyDict) (k : String) : Option JValue :=
  match pyLookup c1 k, pyLookup c2 k with
  | some v, some w => if pyEq v w then some v else none
  | _, _ => none

/-- Effect of one `diffStep` on each bucket: the processed key receives its
classified value (if any); every other key is untouched. -/
theorem diffStep_lookup (c1 c2 : PyDict) (acc : AdvancedConfigManager.DiffResult)
    (k0 k : String) :
    (pyLookup (AdvancedConfigManager.diffStep c1 c2 acc k0).added k
      = (if k = k0 then
           (match addedVal c1 c2 k0 with
            | some v => some v
            | none => pyLookup acc.added k)
         else pyLookup acc.added k)) ∧
    (pyLookup (AdvancedConfigManager.diffStep c1 c2 acc k0).removed k
      = (if k = k0 then
           (match removedVal c1 c2 k0 with
            | some v => some v
            | none => pyLookup acc.removed k)
         else pyLookup acc.removed k)) ∧
    (pyLookup (AdvancedConfigManager.diffStep c1 c2 acc k0).modified k
      = (if k = k0 then
           (match modifiedVal c1 c2 k0 with
            | some v => some v
            | none => pyLookup acc.modified k)
         else pyLookup acc.modified k)) ∧
    (pyLookup (AdvancedConfigManager.diffStep c1 c2 acc k0).unchanged k
      = (if k = k0 then
           (match unchangedVal c1 c2 k0 with
            | some v => some v
            | none => pyLookup acc.unchanged k)
         else pyLookup acc.unchanged k)) := by
  unfold AdvancedConfigManager.diffStep addedVal removedVal modifiedVal unchangedVal
  by_cases hk : k = k0
  · subst hk
    cases h1 : pyLookup c1 k with
    | none =>
        cases h2 : pyLookup c2 k with
        | none => simp
        | some v => simp [pyLookup_pySet_self]
    | some v =>
        cases h2 : pyLookup c2 k with
        | none => simp [pyLookup_pySet_self]
        | some w =>
            by_cases he : pyEq v w
            · simp [he, pyLookup_pySet_self]
            · have he2 : pyEq v w = false := by
                cases h : pyEq v w
                · rfl
                · exact absurd h he
              simp [he2, pyLookup_pySet_self]
  · have hk2 : k0 ≠ k := fun h => hk h.symm
    cases h1 : pyLookup c1 k0 with
    | none =>
        cases h2 : pyLookup c2 k0 with
        | none => simp [hk]
        | some v => simp [hk, pyLookup_pySet_ne _ _ _ _ hk2]
    | some v =>
        cases h2 : pyLookup c2 k0 with
        | none => simp [hk, pyLookup_pySet_ne _ _ _ _ hk2]
        | some w =>
            by_cases he : pyEq v w
            · simp [he, hk, pyLookup_pySet_ne _ _ _ _ hk2]
            · have he2 : pyEq v w = false := by
                cases h : pyEq v w
                · rfl
                · exact absurd h he
              simp [he2, hk, pyLookup_pySet_ne _ _ _ _ hk2]

theorem diffFold_lookup (c1 c2 : PyDict) :
    ∀ (ks : List String) (acc : AdvancedConfigManager.DiffResult) (k : String),
      (pyLookup (ks.foldl (AdvancedConfigManager.diffStep c1 c2) acc).added k
        = (if k ∈ ks then
             (match addedVal c1 c2 k with
              | some v => some v
              | none => pyLookup acc.added k)
           else pyLookup acc.added k)) ∧
      (pyLookup (ks.foldl (AdvancedConfigManager.diffStep c1 c2) acc).removed k
        = (if k ∈ ks then
             (match removedVal c1 c2 k with
              | some v => some v
              | none => pyLookup acc.removed k)
           else pyLookup acc.removed k)) ∧
      (pyLookup (ks.foldl (AdvancedConfigManager.diffStep c1 c2) acc).modified k
        = (if k ∈ ks then
             (match modifiedVal c1 c2 k with
              | some v => some v
              | none => pyLookup acc.modified k)
           else pyLookup acc.modified k)) ∧
      (pyLookup (ks.foldl (AdvancedConfigManager.diffStep c1 c2) acc).unchanged k
        = (if k ∈ ks then
             (match unchangedVal c1 c2 k with
              | some v => some v
              | none => pyLookup acc.unchanged k)
           else pyLookup acc.unchanged k)) := by
  intro ks
  induction ks with
  | nil =>
      intro acc k
      simp [List.foldl]
  | cons k0 rest ih =>
      intro acc k
      have hfold : (k0 :: rest).foldl (AdvancedConfigManager.diffStep c1 c2) acc
          = rest.foldl (AdvancedConfigManager.diffStep c1 c2)
              (AdvancedConfigManager.diffStep c1 c2 acc k0) := rfl
      rw [hfold]
      have ihk := ih (AdvancedConfigManager.diffStep c1 c2 acc k0) k
      have hstep := diffStep_lookup c1 c2 acc k0 k
      by_cases hmem : k ∈ rest
      · have hcons : k ∈ k0 :: rest := List.mem_cons_of_mem _ hmem
        refine ⟨?_, ?_, ?_, ?_⟩
        · rw [ihk.1, if_pos hmem, if_pos hcons]
          cases hv : addedVal c1 c2 k with
          | some v => rfl
          | none =>
              rw [hstep.1]
              by_cases hk0 : k = k0
              · rw [if_pos hk0, show addedVal c1 c2 k0 = none from hk0 ▸ hv]
              · rw [if_neg hk0]
        · rw [ihk.2.1, if_pos hmem, if_pos hcons]
          cases hv : removedVal c1 c2 k with
          | some v => rfl
          | none =>
              rw [hstep.2.1]
              by_cases hk0 : k = k0
              · rw [if_pos hk0, show removedVal c1 c2 k0 = none from hk0 ▸ hv]
              · rw [if_neg hk0]
        · rw [ihk.2.2.1, if_pos hmem, if_pos hcons]
          cases hv : modifiedVal c1 c2 k with
          | some v => rfl
          | none =>
              rw [hstep.2.2.1]
              by_cases hk0 : k = k0
              · rw [if_pos hk0, show modifiedVal c1 c2 k0 = none from hk0 ▸ hv]
              · rw [if_neg hk0]
        · rw [ihk.2.2.2, if_pos hmem, if_pos hcons]
          cases hv : unchangedVal c1 c2 k with
          | some v => rfl
          | none =>
              rw [hstep.2.2.2]
              by_cases hk0 : k = k0
              · rw [if_pos hk0, show unchangedVal c1 c2 k0 = none from hk0 ▸ hv]
              · rw [if_neg hk0]
      · refine ⟨?_, ?_, ?_, ?_⟩
        · rw [ihk.1, if_neg hmem, hstep.1]
          by_cases hk0 : k = k0
          · rw [if_pos hk0, if_pos (hk0 ▸ List.mem_cons_self k0 rest), hk0]
          · rw [if_neg hk0, if_neg (by
              intro hc
              rcases List.mem_cons.mp hc with h | h
              · exact hk0 h
              · exact hmem h)]
        · rw [ihk.2.1, if_neg hmem, hstep.2.1]
          by_cases hk0 : k = k0
          · rw [if_pos hk0, if_pos (hk0 ▸ List.mem_cons_self k0 rest), hk0]
          · rw [if_neg hk0, if_neg (by
              intro hc
              rcases List.mem_cons.mp hc with h | h
              · exact hk0 h
              · exact hmem h)]
        · rw [ihk.2.2.1, if_neg hmem, hstep.2.2.1]
          by_cases hk0 : k = k0
          · rw [if_pos hk0, if_pos (hk0 ▸ List.mem_cons_self k0 rest), hk0]
          · rw [if_neg hk0, if_neg (by
              intro hc
              rcases List.mem_cons.mp hc with h | h
              · exact hk0 h
              · exact hmem h)]
        · rw [ihk.2.2.2, if_neg hmem, hstep.2.2.2]
          by_cases hk0 : k = k0
          · rw [if_pos hk0, if_pos (hk0 ▸ List.mem_cons_self k0 rest), hk0]
          · rw [if_neg hk0, if_neg (by
              intro hc
              rcases List.mem_cons.mp hc with h | h
              · exact hk0 h
              · exact hmem h)]

theorem pyLookup_none_iff_not_mem_keys (d : PyDict) (k : String) :
    pyLookup d k = none ↔ k ∉ pyKeys d := by
  unfold pyLookup pyKeys
  rw [alistLookup_eq_none_iff]
  constructor
  · intro h hmem
    rcases List.mem_map.mp hmem with ⟨p, hp, hpk⟩
    exact h p hp hpk
  · intro h p hp hpk
    exact h (hpk ▸ List.mem_map_of_mem Prod.fst hp)

/-- Each bucket of `_calculate_diff` holds exactly its classified keys and
values. -/
theorem calculate_diff_lookup (c1 c2 : PyDict) (k : String) :
    pyLookup (AdvancedConfigManager.calculate_diff c1 c2).added k = addedVal c1 c2 k ∧
    pyLookup (AdvancedConfigManager.calculate_diff c1 c2).removed k = removedVal c1 c2 k ∧
    pyLookup (AdvancedConfigManager.calculate_diff c1 c2).modified k = modifiedVal c1 c2 k ∧
    pyLookup (AdvancedConfigManager.calculate_diff c1 c2).unchanged k
      = unchangedVal c1 c2 k := by
  have hfold := diffFold_lookup c1 c2 ((pyKeys c1 ++ pyKeys c2).dedup)
    { added := [], removed := [], modified := [], unchanged := [] } k
  have hcd : AdvancedConfigManager.calculate_diff c1 c2
      = ((pyKeys c1 ++ pyKeys c2).dedup).foldl (AdvancedConfigManager.diffStep c1 c2)
          { added := [], removed := [], modified := [], unchanged := [] } := rfl
  by_cases hmem : k ∈ (pyKeys c1 ++ pyKeys c2).dedup
  · rw [hcd]
    rw [hfold.1, hfold.2.1, hfold.2.2.1, hfold.2.2.2]
    rw [if_pos hmem, if_pos hmem, if_pos hmem, if_pos hmem]
    refine ⟨?_, ?_, ?_, ?_⟩
    · cases h : addedVal c1 c2 k <;> rfl
    · cases h : removedVal c1 c2 k <;> rfl
    · cases h : modifiedVal c1 c2 k <;> rfl
    · cases h : unchangedVal c1 c2 k <;> rfl
  · have hnot : k ∉ pyKeys c1 ∧ k ∉ pyKeys c2 := by
      rw [List.mem_dedup, List.mem_append] at hmem
      push_neg at hmem
      exact hmem
    have h1 : pyLookup c1 k = none := (pyLookup_none_iff_not_mem_keys c1 k).mpr hnot.1
    have h2 : pyLookup c2 k = none := (pyLookup_none_iff_not_mem_keys c2 k).mpr hnot.2
    rw [hcd, hfold.1, hfold.2.1, hfold.2.2.1, hfold.2.2.2]
    rw [if_neg hmem, if_neg hmem, if_neg hmem, if_neg hmem]
    unfold addedVal removedVal modifiedVal unchangedVal
    rw [h1, h2]
    exact ⟨rfl, rfl, rfl, rfl⟩

/-- Every key of the union lands in exactly one bucket; keys outside the
union land in none. -/
theorem calculate_diff_exactly_one (c1 c2 : PyDict) (k : String) :
    ((if (pyLookup (AdvancedConfigManager.calculate_diff c1 c2).added k).isSome
        then 1 else 0)
      + (if (pyLookup (AdvancedConfigManager.calculate_diff c1 c2).removed k).isSome
        then 1 else 0)
      + (if (pyLookup (AdvancedConfigManager.calculate_diff c1 c2).modified k).isSome
        then 1 else 0)
      + (if (pyLookup (AdvancedConfigManager.calculate_diff c1 c2).unchanged k).isSome
        then 1 else 0) : Nat)
      = (if (pyLookup c1 k).isSome || (pyLookup c2 k).isSome then 1 else 0) := by
  have h := calculate_diff_lookup c1 c2 k
  rw [h.1, h.2.1, h.2.2.1, h.2.2.2]
  unfold addedVal removedVal modifiedVal unchangedVal
  cases h1 : pyLookup c1 k with
  | none =>
      cases h2 : pyLookup c2 k with
      | none => simp
      | some v => simp
  | some v =>
      cases h2 : pyLookup c2 k with
      | none => simp
      | some w =>
          by_cases he : pyEq v w
          · simp [he]
          · have he2 : pyEq v w = false := by
              cases hb : pyEq v w
              · rfl
              · exact absurd hb he
            simp [he2]

/-- C8 (amended): `get_config_diff` resolves the two versions by exact
timestamp match (last matching history entry wins) and raises the not-found
`ValueError` precisely when a version has no matching entry **or its matched
snapshot is an empty dict** (`if not config1 or not config2`); otherwise it
partitions the key union so that every key falls in exactly one of
added / removed / modified (with old and new values) / unchanged, decided by
key presence and Python value (in)equality. -/
theorem get_config_diff_partition (st : AdvancedConfigManager) (name v1 v2 : String) :
    (∀ c1 c2 : PyDict,
        AdvancedConfigManager.findVersion
          ((alistLookup st.config_history name).getD []) v1 = some c1 →
        AdvancedConfigManager.findVersion
          ((alistLookup st.config_history name).getD []) v2 = some c2 →
        c1 ≠ [] → c2 ≠ [] →
        st.get_config_diff name v1 v2
          = .ok (AdvancedConfigManager.calculate_diff c1 c2)) ∧
    ((AdvancedConfigManager.findVersion
          ((alistLookup st.config_history name).getD []) v1 = none ∨
      AdvancedConfigManager.findVersion
          ((alistLookup st.config_history name).getD []) v2 = none ∨
      AdvancedConfigManager.findVersion
          ((alistLookup st.config_history name).getD []) v1 = some [] ∨
      AdvancedConfigManager.findVersion
          ((alistLookup st.config_history name).getD []) v2 = some []) →
        st.get_config_diff name v1 v2
          = .error (.valueError "One or both versions not found in history")) ∧
    (∀ (c1 c2 : PyDict) (k : String),
        pyLookup (AdvancedConfigManager.calculate_diff c1 c2).added k
            = addedVal c1 c2 k ∧
        pyLookup (AdvancedConfigManager.calculate_diff c1 c2).removed k
            = removedVal c1 c2 k ∧
        pyLookup (AdvancedConfigManager.calculate_diff c1 c2).modified k
            = modifiedVal c1 c2 k ∧
        pyLookup (AdvancedConfigManager.calculate_diff c1 c2).unchanged k
            = unchangedVal c1 c2 k) ∧
    (∀ (c1 c2 : PyDict) (k : String),
        ((if (pyLookup (AdvancedConfigManager.calculate_diff c1 c2).added k).isSome
            then 1 else 0)
          + (if (pyLookup (AdvancedConfigManager.calculate_diff c1 c2).removed k).isSome
            then 1 else 0)
          + (if (pyLookup (AdvancedConfigManager.calculate_diff c1 c2).modified k).isSome
            then 1 else 0)
          + (if (pyLookup (AdvancedConfigManager.calculate_diff c1 c2).unchanged k).isSome
            then 1 else 0) : Nat)
          = (if (pyLookup c1 k).isSome || (pyLookup c2 k).isSome then 1 else 0)) := by
  refine ⟨?_, ?_, calculate_diff_lookup, calculate_diff_exactly_one⟩
  · intro c1 c2 h1 h2 hne1 hne2
    simp only [AdvancedConfigManager.get_config_diff]
    rw [h1, h2]
    have he1 : c1.isEmpty = false := by
      cases c1
      · exact absurd rfl hne1
      · rfl
    have he2 : c2.isEmpty = false := by
      cases c2
      · exact absurd rfl hne2
      · rfl
    simp [he1, he2]
  · intro hcase
    simp only [AdvancedConfigManager.get_config_diff]
    rcases hcase with h | h | h | h
    · rw [h]
    · rw [h]
      cases AdvancedConfigManager.findVersion
          ((alistLookup st.config_history name).getD []) v1 <;> simp
    · rw [h]
      cases AdvancedConfigManager.findVersion
          ((alistLookup st.config_history name).getD []) v2 with
      | none => simp
      | some c2 => simp
    · rw [h]
      cases AdvancedConfigManager.findVersion
          ((alistLookup st.config_history name).getD []) v1 with
      | none => simp
      | some c1 => simp

/-- A manager whose `n` history holds an empty snapshot at `t1` and
`{"a": 1}` at `t2`, built through the history-aware save path. -/
def stC8 : AdvancedConfigManager :=
  runAdvOps (AdvancedConfigManager.initAM "config" "json")
    [AdvOp.saveV "n" [] none none "t1",
     AdvOp.saveV "n" [("a", .num 1)] none none "t2"]

/-- C8 counterexample: both requested timestamps have a matching history
entry, yet `get_config_diff` raises the not-found error, because the `t1`
snapshot is an empty dict and `if not config1` treats it as missing. -/
theorem diff_empty_snapshot_counterexample :
    (((alistLookup stC8.config_history "n").getD []).any
        (fun e => e.timestamp == "t1") = true) ∧
    (((alistLookup stC8.config_history "n").getD []).any
        (fun e => e.timestamp == "t2") = true) ∧
    stC8.get_config_diff "n" "t1" "t2"
      = .error (.valueError "One or both versions not found in history") :=
  ⟨rfl, rfl, rfl⟩

/-- Witness for the C8 theorem: the ok branch on non-empty snapshots and the
error branch on the empty snapshot, at concrete inputs. -/
theorem get_config_diff_partition_witness :
    (stC8.get_config_diff "n" "t2" "t2"
      = .ok (AdvancedConfigManager.calculate_diff [("a", .num 1)] [("a", .num 1)])) ∧
    (stC8.get_config_diff "n" "t1" "t2"
      = .error (.valueError "One or both versions not found in history")) :=
  ⟨(get_config_diff_partition stC8 "n" "t2" "t2").1 [("a", .num 1)] [("a", .num 1)]
      rfl rfl (by simp) (by simp),
   (get_config_diff_partition stC8 "n" "t1" "t2").2.1 (Or.inr (Or.inr (Or.inl rfl)))⟩

/-! ## C3 and C6: cache bounds and LRU residency -/

/-- Total estimated bytes of the resident entries. -/
def sumSizes (l : List (String × CacheEntry)) : Int :=
  (l.map (fun kv => (kv.2.size_bytes : Int))).sum

/-- The state invariant of `OptimizedConfigCache`: unique keys, an accurate
`memory_usage` accumulator, and both resource bounds. -/
def CacheInv (c : OptimizedConfigCache) : Prop :=
  (c.cache.map Prod.fst).Nodup ∧
  c.memory_usage = sumSizes c.cache ∧
  c.memory_usage ≤ (c.max_memory_bytes : Int) ∧
  c.cache.length ≤ c.max_entries

namespace OptimizedConfigCache

theorem maxes_preserved (c : OptimizedConfigCache) (op : CacheOp) :
    (runCacheOp c op).max_memory_bytes = c.max_memory_bytes ∧
    (runCacheOp c op).max_entries = c.max_entries := by
  cases op with
  | get k =>
      show ((c.get k).2.max_memory_bytes = _) ∧ ((c.get k).2.max_entries = _)
      unfold get
      cases alistLookup c.cache k <;> exact ⟨rfl, rfl⟩
  | put k v ttl now =>
      show ((c.put k v ttl now).max_memory_bytes = c.max_memory_bytes) ∧
           ((c.put k v ttl now).max_entries = c.max_entries)
      unfold put removeExisting
      cases alistLookup c.cache k <;> exact ⟨rfl, rfl⟩

/-- With unique keys, removing a looked-up entry removes exactly its size. -/
theorem sumSizes_filterOut (l : List (String × CacheEntry)) (k : String) (e : CacheEntry)
    (hnd : (l.map Prod.fst).Nodup) (hl : alistLookup l k = some e) :
    sumSizes (l.filter (fun kv => kv.1 ≠ k)) = sumSizes l - e.size_bytes := by
  induction l with
  | nil => cases hl
  | cons p rest ih =>
      obtain ⟨k2, w⟩ := p
      have hnd2 := List.nodup_cons.mp hnd
      by_cases h2 : k2 = k
      · subst h2
        rw [alistLookup, if_pos rfl] at hl
        cases hl
        have hrest : rest.filter (fun kv => kv.1 ≠ k2) = rest := by
          apply List.filter_eq_self.mpr
          intro a ha
          simp only [ne_eq, decide_not]
          have : a.1 ∈ rest.map Prod.fst := List.mem_map_of_mem Prod.fst ha
          have hne : a.1 ≠ k2 := fun hh => hnd2.1 (hh ▸ this)
          simp [hne]
        rw [show (((k2, e) :: rest).filter (fun kv => kv.1 ≠ k2))
            = rest.filter (fun kv => kv.1 ≠ k2) by simp [List.filter_cons]]
        rw [hrest]
        unfold sumSizes
        simp only [List.map_cons, List.sum_cons]
        ring
      · rw [alistLookup, if_neg h2] at hl
        rw [show (((k2, w) :: rest).filter (fun kv => kv.1 ≠ k))
            = (k2, w) :: rest.filter (fun kv => kv.1 ≠ k) by simp [List.filter_cons, h2]]
        unfold sumSizes at ih ⊢
        simp only [List.map_cons, List.sum_cons]
        rw [ih hnd2.2 hl]
        ring

/-- `removeExisting` keeps the invariant data accurate. -/
theorem removeExisting_inv (c : OptimizedConfigCache) (key : String)
    (hnd : (c.cache.map Prod.fst).Nodup) (hmem : c.memory_usage = sumSizes c.cache) :
    ((c.removeExisting key).cache.map Prod.fst).Nodup ∧
    (c.removeExisting key).memory_usage = sumSizes (c.removeExisting key).cache ∧
    (c.removeExisting key).cache.length ≤ c.cache.length ∧
    (c.removeExisting key).memory_usage ≤ c.memory_usage ∧
    (c.removeExisting key).max_entries = c.max_entries ∧
    (c.removeExisting key).max_memory_bytes = c.max_memory_bytes := by
  unfold removeExisting
  cases hl : alistLookup c.cache key with
  | none => exact ⟨hnd, hmem, le_refl _, le_refl _, rfl, rfl⟩
  | some old =>
      refine ⟨?_, ?_, ?_, ?_, rfl, rfl⟩
      · exact hnd.sublist ((List.filter_sublist _).map Prod.fst)
      · show c.memory_usage - (old.size_bytes : Int) = _
        rw [sumSizes_filterOut c.cache key old hnd hl, hmem]
      · exact List.length_filter_le _ _
      · show c.memory_usage - (old.size_bytes : Int) ≤ c.memory_usage
        omega

/-- The eviction loop only drops a prefix: its result is a sublist of the
input. -/
theorem evictWhile_sublist (maxE maxB size : Nat) :
    ∀ (l : List (String × CacheEntry)) (mem : Int) (evs : Nat),
      (evictWhile maxE maxB size l mem evs).1.Sublist l := by
  intro l
  induction l with
  | nil => intro mem evs; rw [evictWhile]
  | cons q rest ih =>
      intro mem evs
      obtain ⟨k, e⟩ := q
      rw [evictWhile]
      by_cases hc : ((k, e) :: rest).length ≥ maxE ∨ mem + size > maxB
      · rw [if_pos hc]
        exact (ih _ _).trans (List.sublist_cons_self _ _)
      · rw [if_neg hc]

/-- The eviction loop keeps the memory accumulator equal to the resident
size sum. -/
theorem evictWhile_mem_accurate (maxE maxB size : Nat) :
    ∀ (l : List (String × CacheEntry)) (mem : Int) (evs : Nat),
      mem = sumSizes l →
      (evictWhile maxE maxB size l mem evs).2.1
        = sumSizes (evictWhile maxE maxB size l mem evs).1 := by
  intro l
  induction l with
  | nil =>
      intro mem evs h
      rw [evictWhile]
      exact h
  | cons q rest ih =>
      intro mem evs h
      obtain ⟨k, e⟩ := q
      rw [evictWhile]
      by_cases hc : ((k, e) :: rest).length ≥ maxE ∨ mem + size > maxB
      · rw [if_pos hc]
        apply ih
        rw [h]
        unfold sumSizes
        simp only [List.map_cons, List.sum_cons]
        ring
      · rw [if_neg hc]
        exact h

/-- The eviction loop stops only with an empty cache or with both bounds
satisfied for the pending insertion. -/
theorem evictWhile_post (maxE maxB size : Nat) :
    ∀ (l : List (String × CacheEntry)) (mem : Int) (evs : Nat),
      (evictWhile maxE maxB size l mem evs).1 = [] ∨
      ((evictWhile maxE maxB size l mem evs).1.length < maxE ∧
       (evictWhile maxE maxB size l mem evs).2.1 + size ≤ (maxB : Int)) := by
  intro l
  induction l with
  | nil =>
      intro mem evs
      rw [evictWhile]
      exact Or.inl rfl
  | cons q rest ih =>
      intro mem evs
      obtain ⟨k, e⟩ := q
      rw [evictWhile]
      by_cases hc : ((k, e) :: rest).length ≥ maxE ∨ mem + size > maxB
      · rw [if_pos hc]
        exact ih _ _
      · rw [if_neg hc]
        push_neg at hc
        exact Or.inr ⟨hc.1, hc.2⟩

theorem filterOut_length_lt (l : List (String × CacheEntry)) (k : String) (e : CacheEntry)
    (hl : alistLookup l k = some e) :
    (l.filter (fun kv => kv.1 ≠ k)).length < l.length := by
  induction l with
  | nil => cases hl
  | cons p rest ih =>
      obtain ⟨k2, w⟩ := p
      by_cases h2 : k2 = k
      · subst h2
        rw [show (((k2, w) :: rest).filter (fun kv => kv.1 ≠ k2))
            = rest.filter (fun kv => kv.1 ≠ k2) by simp [List.filter_cons]]
        calc (rest.filter (fun kv => kv.1 ≠ k2)).length
            ≤ rest.length := List.length_filter_le _ _
          _ < ((k2, w) :: rest).length := by simp
      · rw [alistLookup, if_neg h2] at hl
        rw [show (((k2, w) :: rest).filter (fun kv => kv.1 ≠ k))
            = (k2, w) :: rest.filter (fun kv => kv.1 ≠ k) by simp [List.filter_cons, h2]]
        simpa using ih hl

/-- `get` preserves the cache invariant. -/
theorem get_inv (c : OptimizedConfigCache) (k : String) (h : CacheInv c) :
    CacheInv (c.get k).2 := by
  obtain ⟨hnd, hmem, hbound, hlen⟩ := h
  unfold get
  cases hl : alistLookup c.cache k with
  | none => exact ⟨hnd, hmem, hbound, hlen⟩
  | some e =>
      have hfnd : ((c.cache.filter (fun kv => kv.1 ≠ k)).map Prod.fst).Nodup :=
        hnd.sublist ((List.filter_sublist _).map Prod.fst)
      have hknot : ∀ p ∈ c.cache.filter (fun kv => kv.1 ≠ k), p.1 ≠ k :=
        fun p hp => (alistLookup_eq_none_iff _ _).mp (alistLookup_filterOut c.cache k) p hp
      unfold moveToEnd
      refine ⟨?_, ?_, ?_, ?_⟩
      · rw [List.map_append, List.nodup_append]
        refine ⟨hfnd, List.nodup_singleton _, ?_⟩
        intro a ha ham
        rcases List.mem_map.mp ha with ⟨p, hp, hpk⟩
        exact hknot p hp (hpk.trans (List.mem_singleton.mp ham))
      · show c.memory_usage = sumSizes (c.cache.filter (fun kv => kv.1 ≠ k)
            ++ [(k, { e with access_count := e.access_count + 1 })])
        unfold sumSizes
        rw [List.map_append, List.sum_append]
        have hsum : sumSizes (c.cache.filter (fun kv => kv.1 ≠ k))
            = sumSizes c.cache - e.size_bytes :=
          sumSizes_filterOut c.cache k e hnd hl
        unfold sumSizes at hsum
        rw [hsum, hmem]
        simp
        rfl
      · exact hbound
      · rw [List.length_append]
        have := filterOut_length_lt c.cache k e hl
        simp only [List.length_singleton]
        omega

/-- `put` preserves the cache invariant provided the cache can hold at least
one entry and the inserted value's estimated size fits the budget. -/
theorem put_inv (c : OptimizedConfigCache) (k : String) (v : JValue)
    (ttl : Option Int) (now : Int) (hE : 1 ≤ c.max_entries)
    (hsz : calculate_size v ≤ c.max_memory_bytes) (h : CacheInv c) :
    CacheInv (c.put k v ttl now) := by
  obtain ⟨hnd, hmem, hbound, hlen⟩ := h
  have hc1 := removeExisting_inv c k hnd hmem
  have hlook := removeExisting_lookup c k
  have hsub := evictWhile_sublist (c.removeExisting k).max_entries
    (c.removeExisting k).max_memory_bytes (calculate_size v)
    (c.removeExisting k).cache (c.removeExisting k).memory_usage
    (c.removeExisting k).evictions
  have hacc := evictWhile_mem_accurate (c.removeExisting k).max_entries
    (c.removeExisting k).max_memory_bytes (calculate_size v)
    (c.removeExisting k).cache (c.removeExisting k).memory_usage
    (c.removeExisting k).evictions hc1.2.1
  have hpost := evictWhile_post (c.removeExisting k).max_entries
    (c.removeExisting k).max_memory_bytes (calculate_size v)
    (c.removeExisting k).cache (c.removeExisting k).memory_usage
    (c.removeExisting k).evictions
  have hndr : (((evictWhile (c.removeExisting k).max_entries
      (c.removeExisting k).max_memory_bytes (calculate_size v)
      (c.removeExisting k).cache (c.removeExisting k).memory_usage
      (c.removeExisting k).evictions).1).map Prod.fst).Nodup :=
    hc1.1.sublist (hsub.map Prod.fst)
  have hknot : ∀ p ∈ (evictWhile (c.removeExisting k).max_entries
      (c.removeExisting k).max_memory_bytes (calculate_size v)
      (c.removeExisting k).cache (c.removeExisting k).memory_usage
      (c.removeExisting k).evictions).1, p.1 ≠ k := by
    intro p hp
    exact (alistLookup_eq_none_iff _ _).mp hlook p (hsub.mem hp)
  refine ⟨?_, ?_, ?_, ?_⟩
  · show (((evictWhile _ _ _ _ _ _).1 ++ [(k, _)]).map Prod.fst).Nodup
    rw [List.map_append, List.nodup_append]
    refine ⟨hndr, List.nodup_singleton _, ?_⟩
    intro a ha ham
    rcases List.mem_map.mp ha with ⟨p, hp, hpk⟩
    exact hknot p hp (hpk.trans (List.mem_singleton.mp ham))
  · show (evictWhile _ _ _ _ _ _).2.1 + (calculate_size v : Int)
        = sumSizes ((evictWhile _ _ _ _ _ _).1 ++ [(k, _)])
    unfold sumSizes
    rw [List.map_append, List.sum_append]
    unfold sumSizes at hacc
    rw [hacc]
    simp
  · show (evictWhile _ _ _ _ _ _).2.1 + (calculate_size v : Int)
        ≤ ((c.removeExisting k).max_memory_bytes : Int)
    rcases hpost with hempty | hok
    · have : (evictWhile (c.removeExisting k).max_entries
          (c.removeExisting k).max_memory_bytes (calculate_size v)
          (c.removeExisting k).cache (c.removeExisting k).memory_usage
          (c.removeExisting k).evictions).2.1 = 0 := by
        rw [hacc, hempty]
        rfl
      rw [this]
      have : (c.removeExisting k).max_memory_bytes = c.max_memory_bytes := hc1.2.2.2.2.2
      rw [this]
      omega
    · exact hok.2
  · show ((evictWhile _ _ _ _ _ _).1 ++ [(k, _)]).length ≤ (c.removeExisting k).max_entries
    rw [List.length_append]
    rcases hpost with hempty | hok
    · rw [hempty]
      have : (c.removeExisting k).max_entries = c.max_entries := hc1.2.2.2.2.1
      rw [this]
      simpa using hE
    · simp only [List.length_singleton]
      omega

theorem runCacheOps_maxes (ops : List CacheOp) :
    ∀ c : OptimizedConfigCache,
      (runCacheOps c ops).max_memory_bytes = c.max_memory_bytes ∧
      (runCacheOps c ops).max_entries = c.max_entries := by
  induction ops with
  | nil => intro c; exact ⟨rfl, rfl⟩
  | cons op rest ih =>
      intro c
      have hmax := maxes_preserved c op
      have hr := ih (runCacheOp c op)
      exact ⟨hr.1.trans hmax.1, hr.2.trans hmax.2⟩

theorem runCacheOps_inv (ops : List CacheOp) :
    ∀ c : OptimizedConfigCache, CacheInv c → 1 ≤ c.max_entries →
      (∀ op ∈ ops, ∀ (k : String) (v : JValue) (ttl : Option Int) (now : Int),
          op = CacheOp.put k v ttl now →
          calculate_size v ≤ c.max_memory_bytes) →
      CacheInv (runCacheOps c ops) := by
  induction ops with
  | nil => intro c h _ _; exact h
  | cons op rest ih =>
      intro c h hE hsz
      have hstep : CacheInv (runCacheOp c op) := by
        cases op with
        | get k => exact get_inv c k h
        | put k v ttl now =>
            exact put_inv c k v ttl now hE
              (hsz _ (List.mem_cons_self _ _) k v ttl now rfl) h
      have hmax := maxes_preserved c op
      have hrun : runCacheOps c (op :: rest) = runCacheOps (runCacheOp c op) rest := rfl
      rw [hrun]
      apply ih (runCacheOp c op) hstep
      · rw [hmax.2]
        exact hE
      · intro op2 hop2 k v ttl now heq
        rw [hmax.1]
        exact hsz op2 (List.mem_cons_of_mem _ hop2) k v ttl now heq

end OptimizedConfigCache

/-- C3 (amended): for a cache that can hold at least one entry, and any
operation sequence in which every stored value's estimated size fits the
memory budget, after each completed operation the resident entries' total
estimated size is within the budget and the entry count is within
`max_entries`. -/
theorem cache_bounds (maxMB maxE : Nat) (hE : 1 ≤ maxE) (ops : List CacheOp)
    (hsz : ∀ op ∈ ops, ∀ (k : String) (v : JValue) (ttl : Option Int) (now : Int),
        op = CacheOp.put k v ttl now →
        OptimizedConfigCache.calculate_size v ≤ maxMB * 1024 * 1024) (i : Nat) :
    sumSizes (runCacheOps (OptimizedConfigCache.init maxMB maxE) (ops.take i)).cache
        ≤ ((maxMB * 1024 * 1024 : Nat) : Int) ∧
    (runCacheOps (OptimizedConfigCache.init maxMB maxE) (ops.take i)).cache.length
        ≤ maxE := by
  have hinv : CacheInv (OptimizedConfigCache.init maxMB maxE) :=
    ⟨List.nodup_nil, rfl, Int.natCast_nonneg _, Nat.zero_le _⟩
  have h := OptimizedConfigCache.runCacheOps_inv (ops.take i)
    (OptimizedConfigCache.init maxMB maxE) hinv hE
    (fun op hop => hsz op (List.take_subset i ops hop))
  have hmax := OptimizedConfigCache.runCacheOps_maxes (ops.take i)
    (OptimizedConfigCache.init maxMB maxE)
  obtain ⟨hnd, hmem, hbound, hlen⟩ := h
  constructor
  · rw [← hmem]
    calc (runCacheOps (OptimizedConfigCache.init maxMB maxE) (ops.take i)).memory_usage
        ≤ ((runCacheOps (OptimizedConfigCache.init maxMB maxE)
            (ops.take i)).max_memory_bytes : Int) := hbound
      _ = ((maxMB * 1024 * 1024 : Nat) : Int) := by rw [hmax.1]; rfl
  · calc (runCacheOps (OptimizedConfigCache.init maxMB maxE) (ops.take i)).cache.length
        ≤ (runCacheOps (OptimizedConfigCache.init maxMB maxE)
            (ops.take i)).max_entries := hlen
      _ = maxE := by rw [hmax.2]; rfl

/-- C3 counterexample: a cache constructed with a 0 MB budget still inserts
the next value after the eviction loop empties the cache, so after that
completed `put` the resident size total (3 bytes for `"a"`) exceeds the
0-byte memory budget. -/
theorem cache_memory_bound_counterexample :
    sumSizes ((OptimizedConfigCache.init 0 10).put "k" (.str "a") none 0).cache
        > (((OptimizedConfigCache.init 0 10).max_memory_bytes : Nat) : Int) ∧
    ((OptimizedConfigCache.init 0 10).put "k" (.str "a") none 0).cache.length = 1 := by
  constructor
  · decide
  · decide

/-- Witness for the C3 theorem on a concrete run: capacity 2, three puts and
a get, checked after every prefix. -/
theorem cache_bounds_witness :
    (1 ≤ 2) ∧
    (sumSizes (runCacheOps (OptimizedConfigCache.init 100 2)
        ([CacheOp.put "a" (.num 1) none 0, CacheOp.put "b" (.num 2) none 1,
          CacheOp.get "a", CacheOp.put "c" (.num 3) none 2].take 4)).cache
      ≤ ((100 * 1024 * 1024 : Nat) : Int)) ∧
    ((runCacheOps (OptimizedConfigCache.init 100 2)
        ([CacheOp.put "a" (.num 1) none 0, CacheOp.put "b" (.num 2) none 1,
          CacheOp.get "a", CacheOp.put "c" (.num 3) none 2].take 4)).cache.length ≤ 2) := by
  have hsz : ∀ op ∈ [CacheOp.put "a" (.num 1) none 0, CacheOp.put "b" (.num 2) none 1,
      CacheOp.get "a", CacheOp.put "c" (.num 3) none 2],
      ∀ (k : String) (v : JValue) (ttl : Option Int) (now : Int),
      op = CacheOp.put k v ttl now →
      OptimizedConfigCache.calculate_size v ≤ 100 * 1024 * 1024 := by
    intro op hop k v ttl now heq
    fin_cases hop <;> cases heq <;> decide
  have h := cache_bounds 100 2 (by decide)
    [CacheOp.put "a" (.num 1) none 0, CacheOp.put "b" (.num 2) none 1,
     CacheOp.get "a", CacheOp.put "c" (.num 3) none 2] hsz 4
  exact ⟨by decide, h.1, h.2⟩

/-- Distinct keys of a most-recent-first list, keeping first occurrences. -/
def recentDistinct : List String → List String
  | [] => []
  | x :: xs => x :: (recentDistinct xs).filter (fun y => y ≠ x)

/-- The (at most) two most recently touched distinct keys of a touch list,
in LRU-to-MRU order — the order the cache's `OrderedDict` keeps. -/
def recent2 (ts : List String) : List String :=
  ((recentDistinct ts.reverse).take 2).reverse

/-- The effective touch of one operation: a `put` always touches its key, a
`get` touches its key only on a hit. -/
def touchOfOp (c : OptimizedConfigCache) : CacheOp → List String
  | .get k => if (alistLookup c.cache k).isSome then [k] else []
  | .put k _ _ _ => [k]

/-- The effective touches of an operation run. -/
def touchesOf : OptimizedConfigCache → List CacheOp → List String
  | _, [] => []
  | c, op :: rest => touchOfOp c op ++ touchesOf (runCacheOp c op) rest

theorem mem_recentDistinct (x : String) : ∀ l : List String,
    x ∈ recentDistinct l ↔ x ∈ l := by
  intro l
  induction l with
  | nil => simp [recentDistinct]
  | cons a xs ih =>
      rw [recentDistinct]
      by_cases hx : x = a
      · subst hx
        simp
      · simp only [List.mem_cons, hx, false_or]
        rw [List.mem_filter]
        simp [hx, ih]

theorem recentDistinct_nodup : ∀ l : List String, (recentDistinct l).Nodup := by
  intro l
  induction l with
  | nil => simp [recentDistinct]
  | cons a xs ih =>
      rw [recentDistinct, List.nodup_cons]
      constructor
      · intro hmem
        have := (List.mem_filter.mp hmem).2
        simp at this
      · exact ih.filter _

theorem mapFst_filter_ne (l : List (String × CacheEntry)) (k : String) :
    (l.filter (fun kv => kv.1 ≠ k)).map Prod.fst
      = (l.map Prod.fst).filter (fun y => y ≠ k) := by
  induction l with
  | nil => rfl
  | cons p rest ih =>
      obtain ⟨k2, w⟩ := p
      by_cases h2 : k2 = k
      · simpa [List.filter_cons, h2] using ih
      · simpa [List.filter_cons, h2] using ih

/-- First survivor of the first two equals first survivor overall, for a
duplicate-free list. -/
theorem take_two_filter_take_one (R : List String) (k : String) (hnd : R.Nodup) :
    ((R.take 2).filter (fun y => y ≠ k)).take 1
      = (R.filter (fun y => y ≠ k)).take 1 := by
  match R with
  | [] => rfl
  | [a] => simp
  | a :: b :: rest =>
      by_cases ha : a = k
      · subst ha
        by_cases hb : b = a
        · refine absurd ?_ (List.nodup_cons.mp hnd).1
          rw [← hb]
          exact List.mem_cons_self b rest
        · simp [List.filter_cons, hb]
      · simp [List.filter_cons, ha]

/-- For a key present among the first two of a duplicate-free list, filtering
it out of the first two is the first survivor overall. -/
theorem take_two_filter_of_mem (R : List String) (k : String) (hnd : R.Nodup)
    (hmem : k ∈ R.take 2) :
    (R.take 2).filter (fun y => y ≠ k) = (R.filter (fun y => y ≠ k)).take 1 := by
  match R with
  | [] => cases hmem
  | [a] =>
      have : k = a := by simpa using hmem
      subst this
      simp
  | a :: b :: rest =>
      have hane : a ∉ b :: rest := (List.nodup_cons.mp hnd).1
      have hab : a ≠ b := fun h => hane (by rw [h]; exact List.mem_cons_self b rest)
      rcases (by simpa using hmem : k = a ∨ k = b) with hk | hk
      · subst hk
        have hbrest : ∀ y ∈ rest, y ≠ k := by
          intro y hy h
          subst h
          exact (List.nodup_cons.mp hnd).1 (List.mem_cons_of_mem _ hy)
        simp only [List.take, List.filter_cons]
        have hbk : b ≠ k := fun h => hab h.symm
        simp only [ne_eq, hbk, not_false_eq_true, decide_True, decide_not]
        simp
      · subst hk
        have hak : a ≠ k := hab
        simp [List.take, List.filter_cons, hak]

/-- With capacity 2 and an ample budget (every resident or pending size at
most `M`, `3M` within budget), the eviction loop never evicts for memory and
keeps exactly the most recent resident entry when full. -/
theorem evictWhile_small (B size M : Nat) (hsize : size ≤ M) (hB : 3 * M ≤ B) :
    ∀ (l : List (String × CacheEntry)) (mem : Int) (evs : Nat),
      l.length ≤ 2 → mem = sumSizes l → (∀ kv ∈ l, kv.2.size_bytes ≤ M) →
      (OptimizedConfigCache.evictWhile 2 B size l mem evs).1
        = l.drop (l.length - 1) := by
  intro l
  match l with
  | [] =>
      intro mem evs _ _ _
      rw [OptimizedConfigCache.evictWhile]
      rfl
  | [x] =>
      intro mem evs _ hmem hsz
      rw [OptimizedConfigCache.evictWhile]
      have hx : (x.2.size_bytes : Int) ≤ (M : Int) := by
        exact_mod_cast hsz x (List.mem_singleton.mpr rfl)
      have hmem2 : mem = (x.2.size_bytes : Int) := by
        rw [hmem]
        unfold sumSizes
        simp
      have hcond : ¬([x].length ≥ 2 ∨ mem + (size : Int) > (B : Int)) := by
        push_neg
        constructor
        · simp
        · rw [hmem2]
          have h1 : (size : Int) ≤ (M : Int) := by exact_mod_cast hsize
          have h2 : (3 * M : Int) ≤ (B : Int) := by exact_mod_cast hB
          omega
      rw [if_neg hcond]
      rfl
  | x :: y :: rest =>
      intro mem evs hlen hmem hsz
      have hrest : rest = [] := by
        cases rest
        · rfl
        · simp at hlen
      subst hrest
      rw [OptimizedConfigCache.evictWhile]
      have hcond : ([x, y].length ≥ 2 ∨ mem + (size : Int) > (B : Int)) := by
        left
        simp
      rw [if_pos hcond]
      rw [OptimizedConfigCache.evictWhile]
      have hy : (y.2.size_bytes : Int) ≤ (M : Int) := by
        exact_mod_cast hsz y (List.mem_cons_of_mem _ (List.mem_singleton.mpr rfl))
      have hmem2 : mem - (x.2.size_bytes : Int) = (y.2.size_bytes : Int) := by
        rw [hmem]
        unfold sumSizes
        simp
      have hcond2 : ¬([y].length ≥ 2 ∨
          mem - (x.2.size_bytes : Int) + (size : Int) > (B : Int)) := by
        push_neg
        constructor
        · simp
        · rw [hmem2]
          have h1 : (size : Int) ≤ (M : Int) := by exact_mod_cast hsize
          have h2 : (3 * M : Int) ≤ (B : Int) := by exact_mod_cast hB
          omega
      rw [if_neg hcond2]
      rfl

theorem alistLookup_isSome_iff_mem {α : Type} (l : List (String × α)) (k : String) :
    (alistLookup l k).isSome ↔ k ∈ l.map Prod.fst := by
  rw [← not_iff_not]
  rw [Option.not_isSome_iff_eq_none, alistLookup_eq_none_iff]
  constructor
  · intro h hmem
    rcases List.mem_map.mp hmem with ⟨p, hp, hpk⟩
    exact h p hp hpk
  · intro h p hp hpk
    exact h (hpk ▸ List.mem_map_of_mem Prod.fst hp)

theorem recent2_length_le (ts : List String) : (recent2 ts).length ≤ 2 := by
  unfold recent2
  rw [List.length_reverse]
  exact (List.length_take_le _ _).trans (le_refl 2)

theorem recent2_snoc (ts : List String) (k : String) :
    recent2 (ts ++ [k])
      = (((recentDistinct ts.reverse).filter (fun y => y ≠ k)).take 1).reverse ++ [k] := by
  unfold recent2
  rw [List.reverse_append]
  show ((recentDistinct (k :: ts.reverse)).take 2).reverse = _
  rw [recentDistinct]
  rw [List.take_succ_cons, List.reverse_cons]

theorem removeExisting_keys (c : OptimizedConfigCache) (k : String) :
    (c.removeExisting k).cache.map Prod.fst
      = (c.cache.map Prod.fst).filter (fun y => y ≠ k) := by
  unfold OptimizedConfigCache.removeExisting
  cases hl : alistLookup c.cache k with
  | some old => exact mapFst_filter_ne c.cache k
  | none =>
      show c.cache.map Prod.fst = _
      symm
      rw [List.filter_eq_self]
      intro a ha
      rcases List.mem_map.mp ha with ⟨p, hp, hpk⟩
      have := (alistLookup_eq_none_iff c.cache k).mp hl p hp
      simp [← hpk, this]

theorem reverse_drop_small (F : List String) (hlen : F.length ≤ 2) :
    F.reverse.drop (F.reverse.length - 1) = (F.take 1).reverse := by
  match F with
  | [] => rfl
  | [a] => rfl
  | [a, b] => rfl
  | a :: b :: c :: rest => simp at hlen

/-- One operation of a capacity-2, ample-budget cache keeps the resident key
list equal to the two most recently touched distinct keys. -/
theorem step_recent2 (M : Nat) (c : OptimizedConfigCache) (ts : List String)
    (op : CacheOp) (hmaxE : c.max_entries = 2)
    (hbud : 3 * M ≤ c.max_memory_bytes)
    (hput : ∀ (k : String) (v : JValue) (ttl : Option Int) (now : Int),
        op = CacheOp.put k v ttl now → OptimizedConfigCache.calculate_size v ≤ M)
    (hinv : CacheInv c)
    (hkeys : c.cache.map Prod.fst = recent2 ts)
    (hM : ∀ kv ∈ c.cache, kv.2.size_bytes ≤ M) :
    CacheInv (runCacheOp c op) ∧
    (runCacheOp c op).cache.map Prod.fst = recent2 (ts ++ touchOfOp c op) ∧
    (∀ kv ∈ (runCacheOp c op).cache, kv.2.size_bytes ≤ M) := by
  obtain ⟨hnd, hmem, hbound, hlen⟩ := hinv
  cases op with
  | get k =>
      refine ⟨OptimizedConfigCache.get_inv c k ⟨hnd, hmem, hbound, hlen⟩, ?_, ?_⟩
      · show ((c.get k).2).cache.map Prod.fst = _
        simp only [touchOfOp]
        unfold OptimizedConfigCache.get
        cases hl : alistLookup c.cache k with
        | none =>
            simp only [Option.isSome_none, Bool.false_eq_true, if_false,
              List.append_nil]
            exact hkeys
        | some e =>
            simp only [Option.isSome_some, if_true]
            unfold OptimizedConfigCache.moveToEnd
            rw [List.map_append, mapFst_filter_ne, hkeys]
            rw [recent2_snoc]
            have hkmem : k ∈ recent2 ts := by
              rw [← hkeys]
              exact (alistLookup_isSome_iff_mem c.cache k).mp (by rw [hl]; rfl)
            unfold recent2 at hkmem ⊢
            rw [List.filter_reverse]
            rw [take_two_filter_of_mem _ _ (recentDistinct_nodup _)
              (by rwa [List.mem_reverse] at hkmem)]
            rfl
      · intro kv hkv
        show kv.2.size_bytes ≤ M
        revert hkv
        show kv ∈ ((c.get k).2).cache → _
        unfold OptimizedConfigCache.get
        cases hl : alistLookup c.cache k with
        | none => exact fun hkv => hM kv hkv
        | some e =>
            intro hkv
            unfold OptimizedConfigCache.moveToEnd at hkv
            rcases List.mem_append.mp hkv with h | h
            · exact hM kv (List.mem_filter.mp h).1
            · have heq : kv = (k, { e with access_count := e.access_count + 1 }) :=
                List.mem_singleton.mp h
              rw [heq]
              exact hM (k, e) (alistLookup_some_mem hl)
  | put k v ttl now =>
      have hE1 : 1 ≤ c.max_entries := by omega
      have hszB : OptimizedConfigCache.calculate_size v ≤ c.max_memory_bytes := by
        have := hput k v ttl now rfl
        omega
      have hc1 := OptimizedConfigCache.removeExisting_inv c k hnd hmem
      have hc1keys := removeExisting_keys c k
      have hc1len : (c.removeExisting k).cache.length ≤ 2 := by
        have h1 : (c.removeExisting k).cache.length
            = ((c.removeExisting k).cache.map Prod.fst).length :=
          (List.length_map _ _).symm
        rw [h1, hc1keys]
        calc ((c.cache.map Prod.fst).filter (fun y => y ≠ k)).length
            ≤ (c.cache.map Prod.fst).length := List.length_filter_le _ _
          _ = (recent2 ts).length := by rw [hkeys]
          _ ≤ 2 := recent2_length_le ts
      have hc1M : ∀ kv ∈ (c.removeExisting k).cache, kv.2.size_bytes ≤ M := by
        intro kv hkv
        apply hM
        revert hkv
        unfold OptimizedConfigCache.removeExisting
        cases alistLookup c.cache k with
        | none => exact fun h => h
        | some old => exact fun h => (List.mem_filter.mp h).1
      have hev := evictWhile_small (c.removeExisting k).max_memory_bytes
          (OptimizedConfigCache.calculate_size v) M
          (hput k v ttl now rfl)
          (by rw [hc1.2.2.2.2.2]; exact hbud)
          (c.removeExisting k).cache (c.removeExisting k).memory_usage
          (c.removeExisting k).evictions hc1len hc1.2.1 hc1M
      have hmaxE1 : (c.removeExisting k).max_entries = 2 := by
        rw [hc1.2.2.2.2.1, hmaxE]
      have hput_cache : (c.put k v ttl now).cache
          = (OptimizedConfigCache.evictWhile (c.removeExisting k).max_entries
              (c.removeExisting k).max_memory_bytes
              (OptimizedConfigCache.calculate_size v)
              (c.removeExisting k).cache (c.removeExisting k).memory_usage
              (c.removeExisting k).evictions).1
            ++ [(k, { value := v, timestamp := now, access_count := 1
                      size_bytes := OptimizedConfigCache.calculate_size v })] := rfl
      refine ⟨OptimizedConfigCache.put_inv c k v ttl now hE1 hszB
          ⟨hnd, hmem, hbound, hlen⟩, ?_, ?_⟩
      · show ((c.put k v ttl now).cache.map Prod.fst) = _
        simp only [touchOfOp]
        rw [hput_cache, hmaxE1, hev]
        rw [List.map_append, List.map_drop]
        rw [show (c.removeExisting k).cache.length
            = ((c.removeExisting k).cache.map Prod.fst).length from
          (List.length_map _ _).symm]
        rw [hc1keys, hkeys]
        show ((recent2 ts).filter (fun y => y ≠ k)).drop
            (((recent2 ts).filter (fun y => y ≠ k)).length - 1) ++ [k]
          = recent2 (ts ++ [k])
        rw [recent2_snoc]
        unfold recent2
        rw [List.filter_reverse]
        have hlen2 : (((recentDistinct ts.reverse).take 2).filter
            (fun y => y ≠ k)).length ≤ 2 := by
          calc (((recentDistinct ts.reverse).take 2).filter
              (fun y => y ≠ k)).length
              ≤ ((recentDistinct ts.reverse).take 2).length :=
                List.length_filter_le _ _
            _ ≤ 2 := List.length_take_le _ _
        rw [reverse_drop_small _ hlen2]
        rw [take_two_filter_take_one _ _ (recentDistinct_nodup _)]
      · intro kv hkv
        rw [show (runCacheOp c (CacheOp.put k v ttl now)).cache
            = (c.put k v ttl now).cache from rfl, hput_cache] at hkv
        rcases List.mem_append.mp hkv with h | h
        · exact hc1M kv (OptimizedConfigCache.evictWhile_subset _ _ _ _ _ _ _ h)
        · have heq := List.mem_singleton.mp h
          rw [heq]
          exact hput k v ttl now rfl

theorem runCacheOps_recent2 (M : Nat) (ops : List CacheOp) :
    ∀ (c : OptimizedConfigCache) (ts : List String),
      c.max_entries = 2 → 3 * M ≤ c.max_memory_bytes →
      (∀ op ∈ ops, ∀ (k : String) (v : JValue) (ttl : Option Int) (now : Int),
          op = CacheOp.put k v ttl now → OptimizedConfigCache.calculate_size v ≤ M) →
      CacheInv c → c.cache.map Prod.fst = recent2 ts →
      (∀ kv ∈ c.cache, kv.2.size_bytes ≤ M) →
      (runCacheOps c ops).cache.map Prod.fst = recent2 (ts ++ touchesOf c ops) := by
  induction ops with
  | nil =>
      intro c ts _ _ _ _ hkeys _
      simpa [runCacheOps, touchesOf] using hkeys
  | cons op rest ih =>
      intro c ts hmaxE hbud hput hinv hkeys hM
      have hstep := step_recent2 M c ts op hmaxE hbud
        (fun k v ttl now h => hput op (List.mem_cons_self _ _) k v ttl now h)
        hinv hkeys hM
      have hmax := OptimizedConfigCache.maxes_preserved c op
      have hrun : runCacheOps c (op :: rest) = runCacheOps (runCacheOp c op) rest := rfl
      have htch : touchesOf c (op :: rest)
          = touchOfOp c op ++ touchesOf (runCacheOp c op) rest := rfl
      rw [hrun, htch]
      have hres := ih (runCacheOp c op) (ts ++ touchOfOp c op)
        (hmax.2.trans hmaxE)
        (by rw [hmax.1]; exact hbud)
        (fun op2 hop2 k v ttl now h =>
          hput op2 (List.mem_cons_of_mem _ hop2) k v ttl now h)
        hstep.1 hstep.2.1 hstep.2.2
      rw [hres, List.append_assoc]

theorem put_key_mem_touches (k : String) (v : JValue) (ttl : Option Int) (now : Int) :
    ∀ (ops : List CacheOp) (c : OptimizedConfigCache),
      CacheOp.put k v ttl now ∈ ops → k ∈ touchesOf c ops := by
  intro ops
  induction ops with
  | nil => intro c h; cases h
  | cons op rest ih =>
      intro c h
      have htch : touchesOf c (op :: rest)
          = touchOfOp c op ++ touchesOf (runCacheOp c op) rest := rfl
      rw [htch]
      rcases List.mem_cons.mp h with hop | hop
      · apply List.mem_append_left
        rw [← hop]
        exact List.mem_singleton.mpr rfl
      · exact List.mem_append_right _ (ih _ hop)

theorem two_mem_two_le_length {α : Type} {a b : α} {l : List α}
    (hab : a ≠ b) (ha : a ∈ l) (hb : b ∈ l) : 2 ≤ l.length := by
  match l with
  | [] => cases ha
  | [x] =>
      have h1 : a = x := List.mem_singleton.mp ha
      have h2 : b = x := List.mem_singleton.mp hb
      exact absurd (h1.trans h2.symm) hab
  | x :: y :: rest => simp

/-- C6: a capacity-2 cache with an ample budget keeps, after any sequence of
puts and gets, exactly the (at most two) most recently touched distinct keys,
in LRU order — a `get` hit and a `put` both count as a touch; and once puts
of three distinct keys have occurred, exactly two entries are resident. -/
theorem lru_two_most_recent (maxMB M : Nat) (ops : List CacheOp)
    (hbud : 3 * M ≤ maxMB * 1024 * 1024)
    (hput : ∀ op ∈ ops, ∀ (k : String) (v : JValue) (ttl : Option Int) (now : Int),
        op = CacheOp.put k v ttl now → OptimizedConfigCache.calculate_size v ≤ M) :
    ((runCacheOps (OptimizedConfigCache.init maxMB 2) ops).cache.map Prod.fst
        = recent2 (touchesOf (OptimizedConfigCache.init maxMB 2) ops)) ∧
    (∀ k1 k2 k3 : String, k1 ≠ k2 → k1 ≠ k3 → k2 ≠ k3 →
        (∃ v ttl now, CacheOp.put k1 v ttl now ∈ ops) →
        (∃ v ttl now, CacheOp.put k2 v ttl now ∈ ops) →
        (∃ v ttl now, CacheOp.put k3 v ttl now ∈ ops) →
        (runCacheOps (OptimizedConfigCache.init maxMB 2) ops).cache.length = 2) := by
  have hbud2 : 3 * M ≤ (OptimizedConfigCache.init maxMB 2).max_memory_bytes := hbud
  have hkeys := runCacheOps_recent2 M ops (OptimizedConfigCache.init maxMB 2) []
    rfl hbud2 hput
    ⟨List.nodup_nil, rfl, Int.natCast_nonneg _, Nat.zero_le _⟩
    rfl
    (fun kv hkv => absurd hkv (List.not_mem_nil kv))
  rw [List.nil_append] at hkeys
  refine ⟨hkeys, ?_⟩
  intro k1 k2 k3 h12 _ _ hp1 hp2 _
  obtain ⟨v1, ttl1, now1, hm1⟩ := hp1
  obtain ⟨v2, ttl2, now2, hm2⟩ := hp2
  have ht1 : k1 ∈ touchesOf (OptimizedConfigCache.init maxMB 2) ops :=
    put_key_mem_touches k1 v1 ttl1 now1 ops _ hm1
  have ht2 : k2 ∈ touchesOf (OptimizedConfigCache.init maxMB 2) ops :=
    put_key_mem_touches k2 v2 ttl2 now2 ops _ hm2
  have hX : 2 ≤ (recentDistinct
      (touchesOf (OptimizedConfigCache.init maxMB 2) ops).reverse).length := by
    apply two_mem_two_le_length h12
    · rw [mem_recentDistinct, List.mem_reverse]
      exact ht1
    · rw [mem_recentDistinct, List.mem_reverse]
      exact ht2
  have hlen : (runCacheOps (OptimizedConfigCache.init maxMB 2) ops).cache.length
      = ((runCacheOps (OptimizedConfigCache.init maxMB 2) ops).cache.map
          Prod.fst).length := (List.length_map _ _).symm
  rw [hlen, hkeys]
  unfold recent2
  rw [List.length_reverse, List.length_take]
  omega

def opsC6 : List CacheOp :=
  [CacheOp.put "alpha" (JValue.num 1) none 0,
   CacheOp.put "beta" (JValue.num 2) none 1,
   CacheOp.get "alpha",
   CacheOp.put "gamma" (JValue.num 3) none 2]

theorem lru_two_most_recent_witness :
    (3 * 8 ≤ 100 * 1024 * 1024) ∧
    ((runCacheOps (OptimizedConfigCache.init 100 2) opsC6).cache.map Prod.fst
        = recent2 (touchesOf (OptimizedConfigCache.init 100 2) opsC6)) ∧
    ((runCacheOps (OptimizedConfigCache.init 100 2) opsC6).cache.length = 2) ∧
    ((runCacheOps (OptimizedConfigCache.init 100 2) opsC6).cache.map Prod.fst
        = ["alpha", "gamma"]) := by
  have h := lru_two_most_recent 100 8 opsC6 (by decide)
    (by
      intro op hop k v ttl now heq
      fin_cases hop <;> cases heq <;> decide)
  refine ⟨by decide, h.1, ?_, by decide⟩
  exact h.2 "alpha" "beta" "gamma" (by decide) (by decide) (by decide)
    ⟨JValue.num 1, none, 0, List.mem_cons_self _ _⟩
    ⟨JValue.num 2, none, 1, List.mem_cons_of_mem _ (List.mem_cons_self _ _)⟩
    ⟨JValue.num 3, none, 2,
      List.mem_cons_of_mem _ (List.mem_cons_of_mem _
        (List.mem_cons_of_mem _ (List.mem_cons_self _ _)))⟩
